import Mathlib

/-!
Verification development for the mail-log scanning tool (`management/mail_log.py`).

The Python source is shallowly embedded: timestamps become integers
(`datetime` values are totally ordered; `date.hour` is modelled by `dateHour`),
Python dicts / `OrderedDict` / `defaultdict(int)` become association lists with
insert-or-update semantics, Python sets become duplicate-free-by-insertion
lists, and each regular-expression match is modelled by the structured match
result it produces: a raw log line is either `unmatched` (the base classifier
regex of `scan_mail_log_line` failed) or `classified` with the captured date,
service tag and message body, where the body itself is represented by the
match result of the detail pattern of whichever service parser inspects it
(`Body.raw` stands for a body matching no detail pattern).  The module-level
mutable globals (`START_DATE`, `END_DATE`, `FILTERS`, `SCAN_*`) become an
explicit `Config` value.
-/

namespace MailLog

/-! ## Generic association-list operations (model of Python dict updates) -/

/-- Lookup in an association list (Python `d[k]` / `k in d`). -/
def alookup {κ β : Type} [DecidableEq κ] (k : κ) : List (κ × β) → Option β
  | [] => none
  | (k', v) :: rest => if k' = k then some v else alookup k rest

/-- Insert-or-update in an association list (Python `d[k] = v`): an existing
key keeps its position, a new key is appended, matching `OrderedDict`. -/
def aset {κ β : Type} [DecidableEq κ] (k : κ) (v : β) : List (κ × β) → List (κ × β)
  | [] => [(k, v)]
  | (k', v') :: rest => if k' = k then (k, v) :: rest else (k', v') :: aset k v rest

/-- Increment in a `defaultdict(int)` (Python `d[k] += 1`). -/
def abump {κ : Type} [DecidableEq κ] (k : κ) (l : List (κ × Nat)) : List (κ × Nat) :=
  aset k ((alookup k l).getD 0 + 1) l

/-- Set insertion (Python `s.add(x)`). -/
def sinsert (x : String) (s : List String) : List String :=
  if x ∈ s then s else s ++ [x]

/-- Substring test helper: does the first list occur at the head of the second? -/
def startsWithSeq : List Char → List Char → Bool
  | [], _ => true
  | _ :: _, [] => false
  | a :: as, b :: bs => a == b && startsWithSeq as bs

/-- Substring containment (Python `needle in hay` on strings). -/
def containsSeq (needle : List Char) : List Char → Bool
  | [] => needle.isEmpty
  | c :: rest => startsWithSeq needle (c :: rest) || containsSeq needle rest

/-! ## Configuration and timestamps -/

/-- Timestamps are modelled as integers; `date.hour` is modelled by `dateHour`. -/
def dateHour (d : Int) : Int := d % 24

/-- The module-level scan parameters of `mail_log.py`
(`START_DATE`, `END_DATE`, `FILTERS`, `SCAN_OUT`, `SCAN_IN`, `SCAN_CONN`,
`SCAN_GREY`, `SCAN_BLOCKED`). -/
structure Config where
  start_date : Int
  end_date : Int
  filters : Option (List String)
  scan_out : Bool
  scan_in : Bool
  scan_conn : Bool
  scan_grey : Bool
  scan_blocked : Bool
deriving DecidableEq

/-- `user_match`: check if the given user matches any of the filters. -/
def user_match (cfg : Config) (user : String) : Bool :=
  match cfg.filters with
  | none => true
  | some fs => fs.any fun u => containsSeq u.toList user.toList

/-! ## Log lines

A raw log line is modelled by the result of the classification regex of
`scan_mail_log_line`; a classified line's body is modelled by the match result
of the detail pattern of the service parser that inspects it. -/

/-- Match result of a service parser's detail regex on the message body.
`raw` is a body on which the detail pattern of every parser fails. -/
inductive Body where
  /-- body matching no detail pattern -/
  | raw
  /-- `([A-Z0-9]+): client=(\S+), sasl_method=(PLAIN|LOGIN), sasl_username=(\S+)` -/
  | submission (qid client method user : String)
  /-- `([A-Z0-9]+): to=<(\S+)>, .* Saved` -/
  | lmtp (qid user : String)
  /-- `Info: Login: user=<(.*?)>, method=PLAIN, rip=(.*?),` -/
  | dovecotLogin (user rip : String)
  /-- `action=(greylist|pass), reason=(.*?), (?:delay=\d+, )?client_name=(.*), client_address=(.*), sender=(.*), recipient=(.*)` -/
  | postgrey (action reason client_name client_address sender user : String)
  /-- `NOQUEUE: reject: RCPT from .*?: (.*?); from=<(.*?)> to=<(.*?)>`, together
  with the results of the two inner `re.search` simplifications
  (group 2 of the `zen.spamhaus.org` pattern and of the `dbl.spamhaus.org`
  pattern applied to the captured message). -/
  | smtpdReject (message sender user : String) (zen dbl : Option String)
deriving DecidableEq

/-- Result of the base classification regex of `scan_mail_log_line`
(timestamp, optional host, service tag of word chars, dashes and slashes,
then everything after the first colon) on a stripped line:
either no match, or the captured timestamp (already year-adjusted, modelled as
an integer), service tag and message body.  The optional host group is unused
by the code and omitted. -/
inductive LineData where
  | unmatched
  | classified (date : Int) (service : String) (body : Body)
deriving DecidableEq

/-! ## The collector (aggregation store) -/

/-- Per-user record of `collector["sent_mail"]`. -/
structure SentData where
  sent_count : Nat
  hosts : List String
  earliest : Option Int
  latest : Option Int
  activity_by_hour : List (Int × Nat)
deriving DecidableEq

/-- Fresh `sent_mail` record created by `scan_postfix_submission_line`. -/
def sentDefault : SentData :=
  { sent_count := 0, hosts := [], earliest := none, latest := none, activity_by_hour := [] }

/-- Per-user record of `collector["received_mail"]`. -/
structure ReceivedData where
  received_count : Nat
  earliest : Option Int
  latest : Option Int
  activity_by_hour : List (Int × Nat)
deriving DecidableEq

/-- Fresh `received_mail` record created by `scan_postfix_lmtp_line`. -/
def receivedDefault : ReceivedData :=
  { received_count := 0, earliest := none, latest := none, activity_by_hour := [] }

/-- Per-user record of `collector["dovecot"]`. -/
structure DovecotData where
  imap : Nat
  pop3 : Nat
  earliest : Option Int
  latest : Option Int
  imap_logins : List (String × Nat)
  pop3_logins : List (String × Nat)
  activity_imap : List (Int × Nat)
  activity_pop3 : List (Int × Nat)
deriving DecidableEq

/-- Fresh `dovecot` record created by `scan_dovecot_line`. -/
def dovecotDefault : DovecotData :=
  { imap := 0, pop3 := 0, earliest := none, latest := none,
    imap_logins := [], pop3_logins := [], activity_imap := [], activity_pop3 := [] }

/-- Per-user record of `collector["rejected"]`. -/
structure RejectedData where
  blocked : List (Int × String × String)
  earliest : Option Int
  latest : Option Int
deriving DecidableEq

/-- Fresh `rejected` record created by `scan_postfix_smtpd_line`. -/
def rejectedDefault : RejectedData :=
  { blocked := [], earliest := none, latest := none }

/-- One greylist record: `(firstGreylistDate, passDate)`. -/
abbrev GreyRecord := Option Int × Option Int

/-- The aggregation store created by `scan_mail_log` (the `collector` dict).
`scan_time` is wall-clock bookkeeping and is omitted. -/
structure Collector where
  scan_count : Nat
  parse_count : Nat
  sent_mail : List (String × SentData)
  received_mail : List (String × ReceivedData)
  dovecot : List (String × DovecotData)
  postgrey : List (String × List ((String × String) × GreyRecord))
  rejected : List (String × RejectedData)
  known_addresses : Option (List String)
  other_services : List String
deriving DecidableEq

/-- The collector as initialised at the start of `scan_mail_log`
(with no `mailconfig` available, so `known_addresses` stays `None`). -/
def initialCollector : Collector :=
  { scan_count := 0, parse_count := 0, sent_mail := [], received_mail := [],
    dovecot := [], postgrey := [], rejected := [], known_addresses := none,
    other_services := [] }

/-! ## Service parsers -/

/-- `scan_postgrey_line`: scan a postgrey log line. -/
def scan_postgrey_line (cfg : Config) (date : Int) (body : Body) (c : Collector) : Collector :=
  match body with
  | .postgrey action reason client_name client_address sender user =>
    if user_match cfg user then
      let key : String × String :=
        (if client_name = "unknown" then client_address else client_name, sender)
      -- `rep = collector["postgrey"].setdefault(user, {})`; `rep` aliases the
      -- stored dict, so writing the (possibly unchanged) `rep` back models
      -- both the setdefault insertion and the in-place mutation.
      let rep := (alookup user c.postgrey).getD []
      let rep :=
        if action = "greylist" ∧ reason = "new" then
          aset key (some date, match alookup key rep with
                               | some kv => kv.2
                               | none => none) rep
        else if action = "pass" then
          aset key ((match alookup key rep with
                     | some kv => kv.1
                     | none => none), some date) rep
        else rep
      { c with postgrey := aset user rep c.postgrey }
    else c
  | _ => c

/-- `scan_postfix_smtpd_line`: scan a postfix smtpd log line (rejected mail). -/
def scan_postfix_smtpd_line (cfg : Config) (date : Int) (body : Body) (c : Collector) :
    Collector :=
  match body with
  | .smtpdReject message sender user zen dbl =>
    -- skip this, if reported in the greylisting report
    if containsSeq "Recipient address rejected: Greylisted".toList message.toList then c
    else if user_match cfg user then
      if c.known_addresses = none ∨ user ∈ (c.known_addresses.getD []) then
        let data := (alookup user c.rejected).getD rejectedDefault
        let message :=
          match zen with
          | some g2 => "ip blocked: " ++ g2
          | none =>
            match dbl with
            | some g2 => "domain blocked: " ++ g2
            | none => message
        let data := { data with latest := some (data.latest.getD date) }
        let data := { data with earliest := some date }
        let data := { data with blocked := data.blocked ++ [(date, sender, message)] }
        { c with rejected := aset user data c.rejected }
      else c
    else c
  | _ => c

/-- `scan_dovecot_line`: scan a dovecot log line (IMAP/POP3 logins);
`prot` is `service[:4]`. -/
def scan_dovecot_line (cfg : Config) (date : Int) (body : Body) (c : Collector)
    (prot : String) : Collector :=
  match body with
  | .dovecotLogin user rip =>
    if user_match cfg user then
      let data := (alookup user c.dovecot).getD dovecotDefault
      -- `data[prot] += 1` and `data["activity-by-hour"][prot][date.hour] += 1`
      let data :=
        if prot = "imap" then
          { data with imap := data.imap + 1,
                      activity_imap := abump (dateHour date) data.activity_imap }
        else
          { data with pop3 := data.pop3 + 1,
                      activity_pop3 := abump (dateHour date) data.activity_pop3 }
      let data := { data with latest := some (data.latest.getD date) }
      let data := { data with earliest := some date }
      -- `if rip not in ("127.0.0.1", "::1") or True:` — the guard is disabled
      let data :=
        if rip ∉ (["127.0.0.1", "::1"] : List String) ∨ True then
          if prot = "imap" then { data with imap_logins := abump rip data.imap_logins }
          else { data with pop3_logins := abump rip data.pop3_logins }
        else data
      { c with dovecot := aset user data c.dovecot }
    else c
  | _ => c

/-- `scan_postfix_lmtp_line`: scan a postfix lmtp log line (received mail). -/
def scan_postfix_lmtp_line (cfg : Config) (date : Int) (body : Body) (c : Collector) :
    Collector :=
  match body with
  | .lmtp _ user =>
    if user_match cfg user then
      let data := (alookup user c.received_mail).getD receivedDefault
      let data := { data with received_count := data.received_count + 1,
                              activity_by_hour := abump (dateHour date) data.activity_by_hour }
      let data := { data with latest := some (data.latest.getD date) }
      let data := { data with earliest := some date }
      { c with received_mail := aset user data c.received_mail }
    else c
  | _ => c

/-- `scan_postfix_submission_line`: scan a postfix submission log line (sent mail). -/
def scan_postfix_submission_line (cfg : Config) (date : Int) (body : Body) (c : Collector) :
    Collector :=
  match body with
  | .submission _ client _ user =>
    if user_match cfg user then
      let data := (alookup user c.sent_mail).getD sentDefault
      let data := { data with sent_count := data.sent_count + 1,
                              hosts := sinsert client data.hosts,
                              activity_by_hour := abump (dateHour date) data.activity_by_hour }
      let data := { data with latest := some (data.latest.getD date) }
      let data := { data with earliest := some date }
      { c with sent_mail := aset user data c.sent_mail }
    else c
  | _ => c

/-! ## Line scanning and file traversal -/

/-- Service tags known to carry nothing interesting (`scan_mail_log_line`'s
"nothing to look at" tuple). -/
def ignoredServices : List String :=
  ["postfix/qmgr", "postfix/pickup", "postfix/cleanup", "postfix/scache",
   "spampd", "postfix/anvil", "postfix/master", "opendkim", "postfix/lmtp",
   "postfix/tlsmgr", "anvil"]

/-- The service-dispatch part of `scan_mail_log_line` (everything after the
date-window checks).  Returns the Python function's boolean result together
with the updated collector. -/
def dispatch_service (cfg : Config) (date : Int) (service : String) (body : Body)
    (c : Collector) : Bool × Collector :=
  if service = "postfix/submission/smtpd" then
    let c := if cfg.scan_out then scan_postfix_submission_line cfg date body c else c
    (true, { c with parse_count := c.parse_count + 1 })
  else if service = "postfix/lmtp" then
    let c := if cfg.scan_in then scan_postfix_lmtp_line cfg date body c else c
    (true, { c with parse_count := c.parse_count + 1 })
  else if service = "imap-login" ∨ service = "pop3-login" then
    let c := if cfg.scan_conn then scan_dovecot_line cfg date body c (service.take 4) else c
    (true, { c with parse_count := c.parse_count + 1 })
  else if service = "postgrey" then
    let c := if cfg.scan_grey then scan_postgrey_line cfg date body c else c
    (true, { c with parse_count := c.parse_count + 1 })
  else if service = "postfix/smtpd" then
    let c := if cfg.scan_blocked then scan_postfix_smtpd_line cfg date body c else c
    (true, { c with parse_count := c.parse_count + 1 })
  else if service ∈ ignoredServices then
    -- nothing to look at
    (true, c)
  else
    (true, { c with other_services := sinsert service c.other_services })

/-- `scan_mail_log_line`: scan one log line; `false` means "don't process, and
halt".  The year replacement (`date.replace(START_DATE.year)`) is absorbed
into the integer timestamp model. -/
def scan_mail_log_line (cfg : Config) (line : LineData) (c : Collector) : Bool × Collector :=
  match line with
  | .unmatched => (true, c)
  | .classified date service body =>
    let c := { c with scan_count := c.scan_count + 1 }
    if date > cfg.start_date then
      -- don't process, but continue
      (true, c)
    else if date < cfg.end_date then
      -- don't process, and halt
      (false, c)
    else
      dispatch_service cfg date service body c

/-- The inner loop of `scan_files` over the (reverse-ordered) lines of one
file, threading the `stop_scan` flag.  Returns the collector, the final
`stop_scan` value, and whether the `return` statement fired (halting the whole
scan). -/
def scan_lines (cfg : Config) : List LineData → Collector → Bool → Collector × Bool × Bool
  | [], c, stop => (c, stop, false)
  | l :: ls, c, stop =>
    match scan_mail_log_line cfg l c with
    | (false, c') =>
      if stop then (c', stop, true)
      else scan_lines cfg ls c' true
    | (_, c') => scan_lines cfg ls c' false

/-- The outer loop of `scan_files` over the log files (each given as its
reverse-ordered line list); `stop_scan` is initialised once, outside the file
loop. -/
def scan_files_go (cfg : Config) : List (List LineData) → Collector → Bool → Collector
  | [], c, _ => c
  | f :: fs, c, stop =>
    match scan_lines cfg f c stop with
    | (c', _, true) => c'
    | (c', stop', false) => scan_files_go cfg fs c' stop'

/-- `scan_files`: scan files until they run out or the earliest date is
reached.  Missing files are skipped and gzip rotation decompression is
filesystem plumbing; a file is modelled by the line sequence its
`reverse_readline` traversal yields. -/
def scan_files (cfg : Config) (files : List (List LineData)) (c : Collector) : Collector :=
  scan_files_go cfg files c false

/-! ## `reverse_readline`

The generator is modelled over the file's character content.  Python's
`str.split('\n')` is modelled by `pySplit`, `lines[-1] += segment` by
`appendLast`.  The `while remaining_size > 0` loop is driven by a fuel
argument; `content.length` units of fuel are enough for any positive buffer
size, since each iteration decreases `remaining_size` by `buf_size ≥ 1`. -/

/-- Python `buff.split(sep)`: always returns a non-empty list of fragments. -/
def pySplit (sep : Char) : List Char → List (List Char)
  | [] => [[]]
  | c :: cs =>
    match pySplit sep cs with
    | [] => [[]]
    | h :: t => if c = sep then [] :: h :: t else (c :: h) :: t

/-- Python `lines[-1] += segment`. -/
def appendLast (seg : List Char) : List (List Char) → List (List Char)
  | [] => []
  | [x] => [x ++ seg]
  | x :: y :: xs => x :: appendLast seg (y :: xs)

/-- `yield segment` after the loop (or at fuel exhaustion):
`if segment is not None: yield segment`. -/
def rrlFinish : Option (List Char) → List (List Char)
  | none => []
  | some s => [s]

/-- One-file body of `reverse_readline`: the backwards block-reading loop.
State: `remaining` (`remaining_size`, an int that can go negative),
`offset`, and the pending `segment`. -/
def rrlGo (content : List Char) (bs : Nat) :
    Nat → Int → Nat → Option (List Char) → List (List Char)
  | 0, _, _, segment => rrlFinish segment
  | fuel + 1, remaining, offset, segment =>
    if remaining ≤ 0 then rrlFinish segment
    else
      let fileSize := content.length
      let offset' := min fileSize (offset + bs)
      let buff := (content.drop (fileSize - offset')).take (min remaining.toNat bs)
      let lines := pySplit '\n' buff
      let (pre, lines') :=
        match segment with
        | none => ([], lines)
        | some seg =>
          -- if the previous chunk starts right at a line boundary, yield the
          -- saved segment first instead of stitching it onto the last line
          if buff.getLast? ≠ some '\n' then ([], appendLast seg lines)
          else ([seg], lines)
      let seg' := lines'.headD []
      let yields := ((lines'.drop 1).reverse).filter fun l => !l.isEmpty
      pre ++ yields ++ rrlGo content bs fuel (remaining - bs) offset' (some seg')

/-- `reverse_readline`: yield the lines of a file (given by its character
content) in reverse order, reading blocks of `bs` characters from the end. -/
def reverse_readline (content : List Char) (bs : Nat) : List (List Char) :=
  rrlGo content bs content.length (content.length : Int) 0 none

/-- The physical text lines of a file's content, in forward order: the
newline-separated fragments, where a final line terminator ends the last line
rather than opening an empty one (an empty file has no lines). -/
def fileLines (content : List Char) : List (List Char) :=
  match content with
  | [] => []
  | _ =>
    if content.getLast? = some '\n' then pySplit '\n' content.dropLast
    else pySplit '\n' content

/-! ## Basic lemmas about the embedding -/

@[simp] lemma alookup_nil {κ β : Type} [DecidableEq κ] (k : κ) :
    alookup k ([] : List (κ × β)) = none := rfl

@[simp] lemma alookup_aset_self {κ β : Type} [DecidableEq κ] (k : κ) (v : β)
    (l : List (κ × β)) : alookup k (aset k v l) = some v := by
  induction l with
  | nil => simp [aset, alookup]
  | cons p rest ih =>
    cases p with
    | mk pk pv =>
      by_cases h : pk = k
      · simp [aset, alookup, h]
      · simp [aset, alookup, h, ih]

@[simp] lemma alookup_aset_ne {κ β : Type} [DecidableEq κ] (k k' : κ) (v : β)
    (l : List (κ × β)) (h : k ≠ k') : alookup k' (aset k v l) = alookup k' l := by
  induction l with
  | nil => simp [aset, alookup, h]
  | cons p rest ih =>
    cases p with
    | mk pk pv =>
      by_cases hp : pk = k
      · subst hp
        simp [aset, alookup, h]
      · simp only [aset, alookup, if_neg hp]
        by_cases hp' : pk = k' <;> simp_all

@[simp] lemma alookup_abump_self {κ : Type} [DecidableEq κ] (k : κ) (l : List (κ × Nat)) :
    alookup k (abump k l) = some ((alookup k l).getD 0 + 1) := by
  simp [abump]

/-- Whether a line triggers the "don't process, and halt" branch of
`scan_mail_log_line` (classified, not after the window start, strictly before
the window end). -/
def line_halts (cfg : Config) : LineData → Bool
  | .unmatched => false
  | .classified date _ _ => !(decide (date > cfg.start_date)) && decide (date < cfg.end_date)

lemma dispatch_service_fst (cfg : Config) (date : Int) (service : String) (body : Body)
    (c : Collector) : (dispatch_service cfg date service body c).1 = true := by
  unfold dispatch_service
  repeat' split
  all_goals rfl

/-- The boolean result of `scan_mail_log_line` depends only on the line. -/
lemma scan_mail_log_line_fst (cfg : Config) (l : LineData) (c : Collector) :
    (scan_mail_log_line cfg l c).1 = !line_halts cfg l := by
  cases l with
  | unmatched => rfl
  | classified date service body =>
    simp only [scan_mail_log_line, line_halts]
    by_cases h1 : date > cfg.start_date
    · simp [h1]
    · by_cases h2 : date < cfg.end_date
      · simp [h1, h2]
      · simp [h1, h2, dispatch_service_fst]

lemma scan_lines_append (cfg : Config) (p q : List LineData) (c : Collector) (stop : Bool) :
    scan_lines cfg (p ++ q) c stop =
      if (scan_lines cfg p c stop).2.2 then scan_lines cfg p c stop
      else scan_lines cfg q (scan_lines cfg p c stop).1 (scan_lines cfg p c stop).2.1 := by
  induction p generalizing c stop with
  | nil => simp [scan_lines]
  | cons l ls ih =>
    simp only [List.cons_append, scan_lines]
    cases hr : scan_mail_log_line cfg l c with
    | mk fst c' =>
      cases fst with
      | false =>
        cases stop with
        | false => simpa using ih c' true
        | true => simp
      | true => simpa using ih c' false

lemma scan_files_go_cons_halted (cfg : Config) (f : List LineData)
    (fs : List (List LineData)) (c : Collector) (stop : Bool)
    (h : (scan_lines cfg f c stop).2.2 = true) :
    scan_files_go cfg (f :: fs) c stop = (scan_lines cfg f c stop).1 := by
  simp only [scan_files_go]
  cases hr : scan_lines cfg f c stop with
  | mk c' rest =>
    cases rest with
    | mk stop' halted =>
      rw [hr] at h
      simp at h
      subst h
      rfl

lemma scan_files_go_singleton (cfg : Config) (f : List LineData) (c : Collector)
    (stop : Bool) :
    scan_files_go cfg [f] c stop = (scan_lines cfg f c stop).1 := by
  simp only [scan_files_go]
  cases hr : scan_lines cfg f c stop with
  | mk c' rest =>
    cases rest with
    | mk stop' halted => cases halted <;> simp [scan_files_go]

/-- Scanning a halting line: the Python function returns `False` and only the
scan counter moves. -/
lemma scan_halt_line (cfg : Config) (l : LineData) (c : Collector)
    (h : line_halts cfg l = true) :
    scan_mail_log_line cfg l c = (false, (scan_mail_log_line cfg l c).2) := by
  have hf := scan_mail_log_line_fst cfg l c
  rw [h] at hf
  simp only [Bool.not_true] at hf
  exact Prod.ext hf rfl

lemma scan_cont_line (cfg : Config) (l : LineData) (c : Collector)
    (h : line_halts cfg l = false) :
    scan_mail_log_line cfg l c = (true, (scan_mail_log_line cfg l c).2) := by
  have hf := scan_mail_log_line_fst cfg l c
  rw [h] at hf
  simp only [Bool.not_false] at hf
  exact Prod.ext hf rfl

/-- Two consecutive halting lines confirm the exit: whatever follows them in
the same file is never read, and the strike flag is irrelevant to the part of
the file that is reached. -/
lemma scan_lines_two_halts (cfg : Config) (l1 l2 : LineData) (q : List LineData)
    (c : Collector) (stop : Bool)
    (h1 : line_halts cfg l1 = true) (h2 : line_halts cfg l2 = true) :
    scan_lines cfg (l1 :: l2 :: q) c stop = scan_lines cfg [l1, l2] c stop ∧
    (scan_lines cfg [l1, l2] c stop).2.2 = true := by
  have e1 := scan_halt_line cfg l1 c h1
  constructor
  · simp only [scan_lines]
    rw [e1]
    cases stop with
    | true => simp
    | false =>
      simp only [scan_lines]
      have e2 := scan_halt_line cfg l2 (scan_mail_log_line cfg l1 c).2 h2
      rw [e2]
      simp [scan_lines]
  · simp only [scan_lines]
    rw [e1]
    cases stop with
    | true => simp
    | false =>
      simp only [scan_lines]
      have e2 := scan_halt_line cfg l2 (scan_mail_log_line cfg l1 c).2 h2
      rw [e2]
      simp [scan_lines]

/-! ## Sample values used by witnesses and counterexamples -/

/-- A sample configuration: window `(end 5, start 10)`, no filters, every
report category enabled. -/
def cfgS : Config :=
  { start_date := 10, end_date := 5, filters := none,
    scan_out := true, scan_in := true, scan_conn := true,
    scan_grey := true, scan_blocked := true }

/-- A classified line dated before the window end (a halting line for `cfgS`). -/
def lineOld : LineData := .classified 0 "postfix/lmtp" (.lmtp "Q1" "u@x")

/-- A classified line inside the window of `cfgS`. -/
def lineIn : LineData := .classified 7 "postfix/lmtp" (.lmtp "Q2" "u@x")

/-! ## Claim C1 -/

/-- C1: during traversal, two consecutively read classified lines dated before
the window's end halt scanning for that file and all remaining files (the rest
of the file and all later files are irrelevant to the result), while a single
such line surrounded by in-window lines does not halt scanning (all three
lines are processed and the scan continues into the rest of the file with the
strike flag cleared). -/
theorem c1_exit_two_strikes (cfg : Config) :
    (∀ (c : Collector) (stop : Bool) (p q : List LineData) (l1 l2 : LineData)
        (fs : List (List LineData)),
        line_halts cfg l1 = true → line_halts cfg l2 = true →
        scan_files_go cfg ((p ++ l1 :: l2 :: q) :: fs) c stop
          = scan_files_go cfg [p ++ [l1, l2]] c stop)
    ∧ (∀ (c : Collector) (stop : Bool) (a l b : LineData) (q : List LineData),
        line_halts cfg a = false → line_halts cfg l = true → line_halts cfg b = false →
        scan_lines cfg (a :: l :: b :: q) c stop
          = scan_lines cfg q (scan_mail_log_line cfg b
              (scan_mail_log_line cfg l (scan_mail_log_line cfg a c).2).2).2 false) := by
  constructor
  · intro c stop p q l1 l2 fs h1 h2
    rw [scan_files_go_singleton]
    by_cases hp : (scan_lines cfg p c stop).2.2 = true
    · have h1' : (scan_lines cfg (p ++ l1 :: l2 :: q) c stop).2.2 = true := by
        rw [scan_lines_append, if_pos hp]
        exact hp
      rw [scan_files_go_cons_halted cfg _ fs c stop h1', scan_lines_append, if_pos hp,
        scan_lines_append, if_pos hp]
    · have hp' : (scan_lines cfg p c stop).2.2 = false := by
        simpa using hp
      obtain ⟨heq, hhalt⟩ := scan_lines_two_halts cfg l1 l2 q
        (scan_lines cfg p c stop).1 (scan_lines cfg p c stop).2.1 h1 h2
      have h1' : (scan_lines cfg (p ++ l1 :: l2 :: q) c stop).2.2 = true := by
        rw [scan_lines_append, if_neg hp, heq]
        exact hhalt
      rw [scan_files_go_cons_halted cfg _ fs c stop h1', scan_lines_append, if_neg hp, heq,
        scan_lines_append, if_neg hp]
  · intro c stop a l b q ha hl hb
    have ea := scan_cont_line cfg a c ha
    have el := scan_halt_line cfg l (scan_mail_log_line cfg a c).2 hl
    have eb := scan_cont_line cfg b
      (scan_mail_log_line cfg l (scan_mail_log_line cfg a c).2).2 hb
    simp only [scan_lines]
    rw [ea]
    simp only [scan_lines]
    rw [el]
    simp only [if_neg Bool.false_ne_true, scan_lines]
    rw [eb]

/-- Witness for C1 at concrete inputs: the two-strikes halt with a trailing
in-window line and a following file, and the isolated out-of-window line that
does not halt. -/
theorem c1_witness :
    (line_halts cfgS lineOld = true ∧ line_halts cfgS lineIn = false) ∧
    scan_files_go cfgS (([lineIn] ++ lineOld :: lineOld :: [lineIn]) :: [[lineIn]])
        initialCollector false
      = scan_files_go cfgS [[lineIn] ++ [lineOld, lineOld]] initialCollector false ∧
    scan_lines cfgS (lineIn :: lineOld :: lineIn :: [lineIn]) initialCollector false
      = scan_lines cfgS [lineIn] (scan_mail_log_line cfgS lineIn
          (scan_mail_log_line cfgS lineOld
            (scan_mail_log_line cfgS lineIn initialCollector).2).2).2 false :=
  ⟨⟨by decide, by decide⟩,
    (c1_exit_two_strikes cfgS).1 initialCollector false [lineIn] [lineIn] lineOld lineOld
      [[lineIn]] (by decide) (by decide),
    (c1_exit_two_strikes cfgS).2 initialCollector false lineIn lineOld lineIn [lineIn]
      (by decide) (by decide) (by decide)⟩

/-! ## Claim C2 -/

/-- C2 counterexample: the exit-confirmation state does carry over between
files.  A halting line at the end of one file followed by a halting line at
the start of the next file halts the scan: the in-window line `lineIn` that
follows in the second file is never scanned (`scan_count` stays at 2, counting
only the two halting lines), even though `lineIn` is a classified line that a
continuing scan would count. -/
theorem c2_counterexample :
    line_halts cfgS lineOld = true ∧ line_halts cfgS lineIn = false ∧
    (scan_files cfgS [[lineOld], [lineOld, lineIn]] initialCollector).scan_count = 2 := by
  decide

/-- C2 amended: the two-strikes state persists across file boundaries — a
halting line ending one file followed by a halting line starting the next file
halts the whole scan, so the remainder of the second file and all later files
never affect the result.  (Only two consecutively *read* halting lines confirm
the exit; the counter is not restarted by a fresh file.) -/
theorem c2_exit_state_carries_over (cfg : Config) (p q : List LineData)
    (l1 l2 : LineData) (fs : List (List LineData)) (c : Collector) (stop : Bool)
    (h1 : line_halts cfg l1 = true) (h2 : line_halts cfg l2 = true) :
    scan_files_go cfg ((p ++ [l1]) :: (l2 :: q) :: fs) c stop
      = scan_files_go cfg [p ++ [l1], [l2]] c stop := by
  by_cases hp : (scan_lines cfg p c stop).2.2 = true
  · have h1' : (scan_lines cfg (p ++ [l1]) c stop).2.2 = true := by
      rw [scan_lines_append, if_pos hp]
      exact hp
    rw [scan_files_go_cons_halted cfg _ _ c stop h1',
      scan_files_go_cons_halted cfg _ _ c stop h1']
  · have hp' := hp
    set r := scan_lines cfg p c stop with hr
    have e1 := scan_halt_line cfg l1 r.1 h1
    have hfile1 : scan_lines cfg (p ++ [l1]) c stop
        = if r.2.1 then (( scan_mail_log_line cfg l1 r.1).2, r.2.1, true)
          else ((scan_mail_log_line cfg l1 r.1).2, true, false) := by
      rw [scan_lines_append, if_neg hp]
      simp only [scan_lines]
      rw [e1]
    cases hstop : r.2.1 with
    | true =>
      have h1' : (scan_lines cfg (p ++ [l1]) c stop).2.2 = true := by
        rw [hfile1, if_pos hstop]
      rw [scan_files_go_cons_halted cfg _ _ c stop h1',
        scan_files_go_cons_halted cfg _ _ c stop h1']
    | false =>
      have h1' : scan_lines cfg (p ++ [l1]) c stop
          = ((scan_mail_log_line cfg l1 r.1).2, true, false) := by
        rw [hfile1, if_neg (by simp [hstop])]
      simp only [scan_files_go]
      rw [h1']
      have e2 := scan_halt_line cfg l2 (scan_mail_log_line cfg l1 r.1).2 h2
      simp only [scan_lines]
      rw [e2]
      simp [scan_files_go]

/-- Witness for C2's amended theorem at concrete inputs. -/
theorem c2_witness :
    scan_files_go cfgS (([lineIn] ++ [lineOld]) :: (lineOld :: [lineIn]) :: [[lineIn]])
        initialCollector false
      = scan_files_go cfgS [[lineIn] ++ [lineOld], [lineOld]] initialCollector false :=
  c2_exit_state_carries_over cfgS [lineIn] [lineIn] lineOld lineOld [[lineIn]]
    initialCollector false (by decide) (by decide)

/-! ## Claim C3 -/

/-- C3: a classified line dated after the window's start is skipped: the
function returns `True` (the line is not a strike, the scan continues) and the
collector is unchanged except for the scanned-lines counter — in particular
every per-user aggregate is untouched. -/
theorem c3_future_line_skip (cfg : Config) (c : Collector) (date : Int)
    (service : String) (body : Body) (h : date > cfg.start_date) :
    scan_mail_log_line cfg (.classified date service body) c
      = (true, { c with scan_count := c.scan_count + 1 }) := by
  simp [scan_mail_log_line, h]

/-- Witness for C3 at a concrete input. -/
theorem c3_witness :
    (11 : Int) > cfgS.start_date ∧
    scan_mail_log_line cfgS (.classified 11 "postfix/lmtp" (.lmtp "Q3" "u@x"))
        initialCollector
      = (true, { initialCollector with scan_count := initialCollector.scan_count + 1 }) :=
  ⟨by decide, c3_future_line_skip cfgS initialCollector 11 "postfix/lmtp"
    (.lmtp "Q3" "u@x") (by decide)⟩

/-! ## Claim C4 -/

/-- C4 counterexample: a line dated exactly `endDate` *is* processed, contrary
to the half-open interval `(endDate, startDate]` of the claim: its service
parser runs (here the lmtp parser records a received mail) and the parse
counter is incremented. -/
theorem c4_counterexample :
    (scan_mail_log_line cfgS (.classified cfgS.end_date "postfix/lmtp" (.lmtp "Q1" "u@x"))
        initialCollector).2.parse_count = 1 ∧
    (alookup "u@x" (scan_mail_log_line cfgS
        (.classified cfgS.end_date "postfix/lmtp" (.lmtp "Q1" "u@x"))
        initialCollector).2.received_mail).isSome = true := by
  decide

/-- C4 amended: the scan processes exactly the classified lines whose
timestamps lie in the *closed* interval `[endDate, startDate]`: a line dated
exactly `startDate` is processed, a line dated exactly `endDate` is also
processed, a line dated strictly before `endDate` is dropped with the halt
signal, and a line dated strictly after `startDate` is skipped. -/
theorem c4_window_closed_interval (cfg : Config) (h : cfg.end_date ≤ cfg.start_date) :
    (∀ (svc : String) (body : Body) (c : Collector),
       scan_mail_log_line cfg (.classified cfg.end_date svc body) c
         = dispatch_service cfg cfg.end_date svc body { c with scan_count := c.scan_count + 1 })
    ∧ (∀ (svc : String) (body : Body) (c : Collector),
       scan_mail_log_line cfg (.classified cfg.start_date svc body) c
         = dispatch_service cfg cfg.start_date svc body { c with scan_count := c.scan_count + 1 })
    ∧ (∀ (d : Int) (svc : String) (body : Body) (c : Collector), d < cfg.end_date →
       scan_mail_log_line cfg (.classified d svc body) c
         = (false, { c with scan_count := c.scan_count + 1 }))
    ∧ (∀ (d : Int) (svc : String) (body : Body) (c : Collector), cfg.start_date < d →
       scan_mail_log_line cfg (.classified d svc body) c
         = (true, { c with scan_count := c.scan_count + 1 })) := by
  refine ⟨?_, ?_, ?_, ?_⟩
  · intro svc body c
    have h1 : ¬ cfg.end_date > cfg.start_date := not_lt.mpr h
    have h2 : ¬ cfg.end_date < cfg.end_date := lt_irrefl _
    simp [scan_mail_log_line, h1, h2]
  · intro svc body c
    have h1 : ¬ cfg.start_date > cfg.start_date := lt_irrefl _
    have h2 : ¬ cfg.start_date < cfg.end_date := not_lt.mpr h
    simp [scan_mail_log_line, h1, h2]
  · intro d svc body c hd
    have h1 : ¬ d > cfg.start_date := not_lt.mpr (le_of_lt (lt_of_lt_of_le hd h))
    simp [scan_mail_log_line, h1, hd]
  · intro d svc body c hd
    simp [scan_mail_log_line, hd]

/-- Witness for C4's amended theorem at a concrete configuration. -/
theorem c4_witness :
    cfgS.end_date ≤ cfgS.start_date ∧
    scan_mail_log_line cfgS (.classified cfgS.end_date "postfix/lmtp" (.lmtp "Q1" "u@x"))
        initialCollector
      = dispatch_service cfgS cfgS.end_date "postfix/lmtp" (.lmtp "Q1" "u@x")
          { initialCollector with scan_count := initialCollector.scan_count + 1 } :=
  ⟨by decide, (c4_window_closed_interval cfgS (by decide)).1 "postfix/lmtp"
    (.lmtp "Q1" "u@x") initialCollector⟩

/-! ## Claim C5 -/

/-- C5: greylist correlation is order-independent.  Starting from a collector
with no greylist data for the recipient, one `greylist`/`new` event (at `d1`)
and one `pass` event (at `d2`, any reason) for the same
`(recipient, clientIdentity, sender)` key produce — in either scan order —
exactly one record for that key, with both `firstGreylistDate` and `passDate`
populated. -/
theorem c5_grey_order_independent (cfg : Config) (c : Collector) (d1 d2 : Int)
    (reason2 client_name client_address sender user : String)
    (hu : user_match cfg user = true) (h0 : alookup user c.postgrey = none) :
    alookup user (scan_postgrey_line cfg d2
        (.postgrey "pass" reason2 client_name client_address sender user)
        (scan_postgrey_line cfg d1
          (.postgrey "greylist" "new" client_name client_address sender user) c)).postgrey
      = some [((if client_name = "unknown" then client_address else client_name, sender),
               (some d1, some d2))]
    ∧ alookup user (scan_postgrey_line cfg d1
        (.postgrey "greylist" "new" client_name client_address sender user)
        (scan_postgrey_line cfg d2
          (.postgrey "pass" reason2 client_name client_address sender user) c)).postgrey
      = some [((if client_name = "unknown" then client_address else client_name, sender),
               (some d1, some d2))] := by
  have hpg : ("pass" : String) ≠ "greylist" := by decide
  constructor <;> simp [scan_postgrey_line, hu, h0, hpg, alookup, aset]

/-- Witness for C5 at concrete inputs. -/
theorem c5_witness :
    alookup "u@x" (scan_postgrey_line cfgS 9
        (.postgrey "pass" "triplet found" "host" "1.2.3.4" "s@y" "u@x")
        (scan_postgrey_line cfgS 6
          (.postgrey "greylist" "new" "host" "1.2.3.4" "s@y" "u@x")
          initialCollector)).postgrey
      = some [((if ("host" : String) = "unknown" then "1.2.3.4" else "host", "s@y"),
               (some 6, some 9))]
    ∧ alookup "u@x" (scan_postgrey_line cfgS 6
        (.postgrey "greylist" "new" "host" "1.2.3.4" "s@y" "u@x")
        (scan_postgrey_line cfgS 9
          (.postgrey "pass" "triplet found" "host" "1.2.3.4" "s@y" "u@x")
          initialCollector)).postgrey
      = some [((if ("host" : String) = "unknown" then "1.2.3.4" else "host", "s@y"),
               (some 6, some 9))] :=
  c5_grey_order_independent cfgS initialCollector 6 9 "triplet found" "host" "1.2.3.4"
    "s@y" "u@x" rfl rfl

/-! ## Claim C6 -/

/-- A collector that already holds a greylist record with a populated
`firstGreylistDate` (and no pass yet) for recipient `u@x`. -/
def c6Base : Collector :=
  { initialCollector with postgrey := [("u@x", [(("host", "s@y"), (some 3, none))])] }

/-- C6 counterexample: a subsequent `greylist`/`new` event for a key whose
`firstGreylistDate` is already populated does *not* leave it unchanged — the
code overwrites it with the new event's date (here `3` becomes `5`). -/
theorem c6_counterexample :
    alookup ("host", "s@y") ((alookup "u@x" c6Base.postgrey).getD [])
      = some (some 3, none)
    ∧ alookup ("host", "s@y") ((alookup "u@x" (scan_postgrey_line cfgS 5
        (.postgrey "greylist" "new" "host" "1.2.3.4" "s@y" "u@x") c6Base).postgrey).getD [])
      = some (some 5, none)
    ∧ (some (5 : Int)) ≠ some 3 := by
  decide

/-- C6 amended: for an existing greylist record `(f, p)` under a key, a `pass`
event at date `d` sets the record to `(f, some d)` — it fills `passDate` and
preserves `firstGreylistDate` — while a `greylist`/`new` event at date `d`
sets the record to `(some d, p)` — it *overwrites* `firstGreylistDate`
(which, with the newest-first scan order, leaves the chronologically earliest
greylist date in place) and preserves `passDate`. -/
theorem c6_grey_record_update (cfg : Config) (c : Collector) (d : Int)
    (reason client_name client_address sender user : String)
    (rep : List ((String × String) × GreyRecord)) (f p : Option Int)
    (hu : user_match cfg user = true)
    (hrep : alookup user c.postgrey = some rep)
    (hkey : alookup (if client_name = "unknown" then client_address else client_name,
        sender) rep = some (f, p)) :
    alookup (if client_name = "unknown" then client_address else client_name, sender)
        ((alookup user (scan_postgrey_line cfg d
          (.postgrey "pass" reason client_name client_address sender user) c).postgrey).getD [])
      = some (f, some d)
    ∧ alookup (if client_name = "unknown" then client_address else client_name, sender)
        ((alookup user (scan_postgrey_line cfg d
          (.postgrey "greylist" "new" client_name client_address sender user) c).postgrey).getD [])
      = some (some d, p) := by
  have hpg : ("pass" : String) ≠ "greylist" := by decide
  constructor <;> simp [scan_postgrey_line, hu, hrep, hkey, hpg]

/-- Witness for C6's amended theorem at concrete inputs. -/
theorem c6_witness :
    alookup (if ("host" : String) = "unknown" then "1.2.3.4" else "host", "s@y")
        ((alookup "u@x" (scan_postgrey_line cfgS 7
          (.postgrey "pass" "triplet found" "host" "1.2.3.4" "s@y" "u@x")
          c6Base).postgrey).getD [])
      = some (some 3, some 7)
    ∧ alookup (if ("host" : String) = "unknown" then "1.2.3.4" else "host", "s@y")
        ((alookup "u@x" (scan_postgrey_line cfgS 7
          (.postgrey "greylist" "new" "host" "1.2.3.4" "s@y" "u@x")
          c6Base).postgrey).getD [])
      = some (some 7, none) :=
  c6_grey_record_update cfgS c6Base 7 "triplet found" "host" "1.2.3.4" "s@y" "u@x"
    [(("host", "s@y"), (some 3, none))] (some 3) none rfl rfl (by decide)

/-! ## Claim C8 -/

/-- The service tags dispatched to the five service parsers. -/
def scannedServiceTags : List String :=
  ["postfix/submission/smtpd", "postfix/lmtp", "imap-login", "pop3-login",
   "postgrey", "postfix/smtpd"]

/-- Whether a body is a match of the detail pattern of the parser that the
given service tag dispatches to. -/
def body_matches (service : String) : Body → Bool
  | .submission .. => decide (service = "postfix/submission/smtpd")
  | .lmtp .. => decide (service = "postfix/lmtp")
  | .dovecotLogin .. => decide (service = "imap-login" ∨ service = "pop3-login")
  | .postgrey .. => decide (service = "postgrey")
  | .smtpdReject .. => decide (service = "postfix/smtpd")
  | .raw => false

/-- C8 counterexample: an in-window line whose service tag names a scanned
service but whose body fails the detail pattern *is* counted as parsed — the
parse counter moves from 0 to 1 — even though no observation is recorded. -/
theorem c8_counterexample :
    (scan_mail_log_line cfgS (.classified 7 "postfix/submission/smtpd" .raw)
        initialCollector).2.parse_count = 1
    ∧ (scan_mail_log_line cfgS (.classified 7 "postfix/submission/smtpd" .raw)
        initialCollector).2.sent_mail = [] := by
  decide

/-- C8 amended: an in-window line whose service tag matches one of the scanned
services but whose body fails that service's detail pattern adds no
observation to any collection — the function returns `True` and the collector
changes only in the scan counter *and the parse counter, which is
incremented*; this is not an error. -/
theorem c8_failed_detail_parse (cfg : Config) (c : Collector) (d : Int)
    (service : String) (body : Body)
    (h1 : cfg.end_date ≤ d) (h2 : d ≤ cfg.start_date)
    (hs : service ∈ scannedServiceTags) (hb : body_matches service body = false) :
    scan_mail_log_line cfg (.classified d service body) c
      = (true, { c with scan_count := c.scan_count + 1,
                        parse_count := c.parse_count + 1 }) := by
  have hgt : ¬ d > cfg.start_date := not_lt.mpr h2
  have hlt : ¬ d < cfg.end_date := not_lt.mpr h1
  fin_cases hs <;> cases body <;>
    first
      | (simp [scan_mail_log_line, dispatch_service, hgt, hlt, ignoredServices,
          scan_postfix_submission_line, scan_postfix_lmtp_line, scan_dovecot_line,
          scan_postgrey_line, scan_postfix_smtpd_line]; done)
      | (exfalso; revert hb; simp [body_matches])

/-- Witness for C8's amended theorem at a concrete input. -/
theorem c8_witness :
    scan_mail_log_line cfgS (.classified 7 "postfix/submission/smtpd" .raw)
        initialCollector
      = (true, { initialCollector with
                   scan_count := initialCollector.scan_count + 1,
                   parse_count := initialCollector.parse_count + 1 }) :=
  c8_failed_detail_parse cfgS initialCollector 7 "postfix/submission/smtpd" .raw
    (by decide) (by decide) (by decide) (by decide)

/-! ## Claim C10 -/

/-- The per-protocol per-IP login map of a Dovecot record
(`data["%s-logins" % prot]`). -/
def loginsOf (prot : String) (d : DovecotData) : List (String × Nat) :=
  if prot = "imap" then d.imap_logins else d.pop3_logins

/-- C10: for every Dovecot login line that matches the login pattern and
passes the user filter, the per-protocol per-IP login count of the extracted
remote IP is incremented — for *every* remote IP, with no exception for the
localhost addresses (the guard that would exclude `127.0.0.1` and `::1` is
disabled by `or True`). -/
theorem c10_dovecot_all_ips_counted (cfg : Config) (c : Collector) (d : Int)
    (user rip prot : String) (hp : prot = "imap" ∨ prot = "pop3")
    (hu : user_match cfg user = true) :
    alookup rip (loginsOf prot ((alookup user
        (scan_dovecot_line cfg d (.dovecotLogin user rip) c prot).dovecot).getD
          dovecotDefault))
      = some ((alookup rip (loginsOf prot
          ((alookup user c.dovecot).getD dovecotDefault))).getD 0 + 1) := by
  rcases hp with hp | hp <;> subst hp <;>
    simp [scan_dovecot_line, hu, loginsOf]

/-- Witness for C10 at the localhost address `127.0.0.1`. -/
theorem c10_witness :
    alookup "127.0.0.1" (loginsOf "imap" ((alookup "u@x"
        (scan_dovecot_line cfgS 7 (.dovecotLogin "u@x" "127.0.0.1")
          initialCollector "imap").dovecot).getD dovecotDefault))
      = some ((alookup "127.0.0.1" (loginsOf "imap"
          ((alookup "u@x" initialCollector.dovecot).getD dovecotDefault))).getD 0 + 1) :=
  c10_dovecot_all_ips_counted cfgS initialCollector 7 "u@x" "127.0.0.1" "imap"
    (Or.inl rfl) rfl

/-! ## Claim C7 -/

/-- A per-user `earliest`/`latest` pair bounded below by `lb`: either both
unset, or both set with `lb ≤ earliest ≤ latest`. -/
def entry_ok (lb : Int) : Option Int → Option Int → Prop
  | some e, some l => lb ≤ e ∧ e ≤ l
  | none, none => True
  | _, _ => False

/-- All four earliest/latest-carrying collections of the collector satisfy
`entry_ok lb`. -/
def stats_lb (c : Collector) (lb : Int) : Prop :=
  (∀ u d, alookup u c.sent_mail = some d → entry_ok lb d.earliest d.latest)
  ∧ (∀ u d, alookup u c.received_mail = some d → entry_ok lb d.earliest d.latest)
  ∧ (∀ u d, alookup u c.dovecot = some d → entry_ok lb d.earliest d.latest)
  ∧ (∀ u d, alookup u c.rejected = some d → entry_ok lb d.earliest d.latest)

/-- Every populated per-user stat has `earliest ≤ latest`. -/
def stats_ordered (c : Collector) : Prop :=
  (∀ u d e l, alookup u c.sent_mail = some d →
      d.earliest = some e → d.latest = some l → e ≤ l)
  ∧ (∀ u d e l, alookup u c.received_mail = some d →
      d.earliest = some e → d.latest = some l → e ≤ l)
  ∧ (∀ u d e l, alookup u c.dovecot = some d →
      d.earliest = some e → d.latest = some l → e ≤ l)
  ∧ (∀ u d e l, alookup u c.rejected = some d →
      d.earliest = some e → d.latest = some l → e ≤ l)

lemma entry_ok_mono {lb lb' : Int} {e l : Option Int} (h : lb' ≤ lb)
    (he : entry_ok lb e l) : entry_ok lb' e l := by
  cases e <;> cases l <;> simp [entry_ok] at *
  exact ⟨le_trans h he.1, he.2⟩

lemma stats_lb_mono {c : Collector} {lb lb' : Int} (h : lb' ≤ lb)
    (hc : stats_lb c lb) : stats_lb c lb' :=
  ⟨fun u d hd => entry_ok_mono h (hc.1 u d hd),
   fun u d hd => entry_ok_mono h (hc.2.1 u d hd),
   fun u d hd => entry_ok_mono h (hc.2.2.1 u d hd),
   fun u d hd => entry_ok_mono h (hc.2.2.2 u d hd)⟩

lemma stats_lb_ordered {c : Collector} {lb : Int} (hc : stats_lb c lb) :
    stats_ordered c := by
  refine ⟨fun u d e l hd he hl => ?_, fun u d e l hd he hl => ?_,
    fun u d e l hd he hl => ?_, fun u d e l hd he hl => ?_⟩
  · have := hc.1 u d hd; rw [he, hl] at this; exact this.2
  · have := hc.2.1 u d hd; rw [he, hl] at this; exact this.2
  · have := hc.2.2.1 u d hd; rw [he, hl] at this; exact this.2
  · have := hc.2.2.2 u d hd; rw [he, hl] at this; exact this.2

/-- A collector that differs only in fields outside the four stat collections
keeps `stats_lb`. -/
lemma stats_lb_of_fields {c c' : Collector} {lb : Int}
    (h1 : c'.sent_mail = c.sent_mail) (h2 : c'.received_mail = c.received_mail)
    (h3 : c'.dovecot = c.dovecot) (h4 : c'.rejected = c.rejected)
    (hc : stats_lb c lb) : stats_lb c' lb := by
  unfold stats_lb at *
  rw [h1, h2, h3, h4]
  exact hc

/-- The newest-first earliest/latest update: `latest` is set only if unset,
`earliest` is overwritten with the (older) date `d`. -/
lemma update_entry_ok {lb d : Int} {eo lo : Option Int}
    (h : entry_ok lb eo lo) (hd : d ≤ lb) :
    entry_ok d (some d) (some (lo.getD d)) := by
  cases eo <;> cases lo <;> simp [entry_ok] at *
  exact le_trans hd (le_trans h.1 h.2)

lemma scan_submission_stats (cfg : Config) (d : Int) (body : Body) (c : Collector)
    {lb : Int} (h : stats_lb c lb) (hd : d ≤ lb) :
    stats_lb (scan_postfix_submission_line cfg d body c) d := by
  cases body with
  | submission qid client method user =>
    simp only [scan_postfix_submission_line]
    by_cases hu : user_match cfg user
    · simp only [hu, if_true]
      have hold : entry_ok lb ((alookup user c.sent_mail).getD sentDefault).earliest
          ((alookup user c.sent_mail).getD sentDefault).latest := by
        cases ha : alookup user c.sent_mail with
        | none => simp [sentDefault, entry_ok]
        | some d0 => simpa using h.1 user d0 ha
      refine ⟨fun u dd hdd => ?_, fun u dd hdd => entry_ok_mono hd (h.2.1 u dd hdd),
        fun u dd hdd => entry_ok_mono hd (h.2.2.1 u dd hdd),
        fun u dd hdd => entry_ok_mono hd (h.2.2.2 u dd hdd)⟩
      by_cases hequ : user = u
      · subst hequ
        rw [show (alookup user (aset user _ c.sent_mail)) = _ from
          alookup_aset_self user _ c.sent_mail] at hdd
        cases hdd
        exact update_entry_ok hold hd
      · rw [alookup_aset_ne user u _ c.sent_mail hequ] at hdd
        exact entry_ok_mono hd (h.1 u dd hdd)
    · simp only [hu, if_false]
      exact stats_lb_mono hd h
  | raw => exact stats_lb_mono hd h
  | lmtp qid user => exact stats_lb_mono hd h
  | dovecotLogin user rip => exact stats_lb_mono hd h
  | postgrey a r cn ca s u => exact stats_lb_mono hd h
  | smtpdReject m s u z b => exact stats_lb_mono hd h

lemma scan_lmtp_stats (cfg : Config) (d : Int) (body : Body) (c : Collector)
    {lb : Int} (h : stats_lb c lb) (hd : d ≤ lb) :
    stats_lb (scan_postfix_lmtp_line cfg d body c) d := by
  cases body with
  | lmtp qid user =>
    simp only [scan_postfix_lmtp_line]
    by_cases hu : user_match cfg user
    · simp only [hu, if_true]
      have hold : entry_ok lb ((alookup user c.received_mail).getD receivedDefault).earliest
          ((alookup user c.received_mail).getD receivedDefault).latest := by
        cases ha : alookup user c.received_mail with
        | none => simp [receivedDefault, entry_ok]
        | some d0 => simpa using h.2.1 user d0 ha
      refine ⟨fun u dd hdd => entry_ok_mono hd (h.1 u dd hdd), fun u dd hdd => ?_,
        fun u dd hdd => entry_ok_mono hd (h.2.2.1 u dd hdd),
        fun u dd hdd => entry_ok_mono hd (h.2.2.2 u dd hdd)⟩
      by_cases hequ : user = u
      · subst hequ
        rw [show (alookup user (aset user _ c.received_mail)) = _ from
          alookup_aset_self user _ c.received_mail] at hdd
        cases hdd
        exact update_entry_ok hold hd
      · rw [alookup_aset_ne user u _ c.received_mail hequ] at hdd
        exact entry_ok_mono hd (h.2.1 u dd hdd)
    · simp only [hu, if_false]
      exact stats_lb_mono hd h
  | raw => exact stats_lb_mono hd h
  | submission a b e f => exact stats_lb_mono hd h
  | dovecotLogin user rip => exact stats_lb_mono hd h
  | postgrey a r cn ca s u => exact stats_lb_mono hd h
  | smtpdReject m s u z b => exact stats_lb_mono hd h

lemma scan_dovecot_stats (cfg : Config) (d : Int) (body : Body) (c : Collector)
    (prot : String) {lb : Int} (h : stats_lb c lb) (hd : d ≤ lb) :
    stats_lb (scan_dovecot_line cfg d body c prot) d := by
  cases body with
  | dovecotLogin user rip =>
    simp only [scan_dovecot_line]
    by_cases hu : user_match cfg user
    · simp only [hu, if_true]
      have hold : entry_ok lb ((alookup user c.dovecot).getD dovecotDefault).earliest
          ((alookup user c.dovecot).getD dovecotDefault).latest := by
        cases ha : alookup user c.dovecot with
        | none => simp [dovecotDefault, entry_ok]
        | some d0 => simpa using h.2.2.1 user d0 ha
      refine ⟨fun u dd hdd => entry_ok_mono hd (h.1 u dd hdd),
        fun u dd hdd => entry_ok_mono hd (h.2.1 u dd hdd), fun u dd hdd => ?_,
        fun u dd hdd => entry_ok_mono hd (h.2.2.2 u dd hdd)⟩
      by_cases hequ : user = u
      · subst hequ
        rw [show (alookup user (aset user _ c.dovecot)) = _ from
          alookup_aset_self user _ c.dovecot] at hdd
        cases hdd
        -- the protocol branches touch neither `earliest` nor `latest`
        by_cases hip : prot = "imap" <;>
          simpa [hip, entry_ok] using update_entry_ok hold hd
      · rw [alookup_aset_ne user u _ c.dovecot hequ] at hdd
        exact entry_ok_mono hd (h.2.2.1 u dd hdd)
    · simp only [hu, if_false]
      exact stats_lb_mono hd h
  | raw => exact stats_lb_mono hd h
  | submission a b e f => exact stats_lb_mono hd h
  | lmtp qid user => exact stats_lb_mono hd h
  | postgrey a r cn ca s u => exact stats_lb_mono hd h
  | smtpdReject m s u z b => exact stats_lb_mono hd h

lemma scan_smtpd_stats (cfg : Config) (d : Int) (body : Body) (c : Collector)
    {lb : Int} (h : stats_lb c lb) (hd : d ≤ lb) :
    stats_lb (scan_postfix_smtpd_line cfg d body c) d := by
  cases body with
  | smtpdReject message sender user zen dbl =>
    simp only [scan_postfix_smtpd_line]
    by_cases hgrey :
        containsSeq "Recipient address rejected: Greylisted".toList message.toList
    · simp only [hgrey, if_true]
      exact stats_lb_mono hd h
    · simp only [hgrey, Bool.false_eq_true, if_false]
      by_cases hu : user_match cfg user
      · simp only [hu, if_true]
        by_cases hknown : c.known_addresses = none ∨ user ∈ (c.known_addresses.getD [])
        · simp only [if_pos hknown]
          have hold : entry_ok lb ((alookup user c.rejected).getD rejectedDefault).earliest
              ((alookup user c.rejected).getD rejectedDefault).latest := by
            cases ha : alookup user c.rejected with
            | none => simp [rejectedDefault, entry_ok]
            | some d0 => simpa using h.2.2.2 user d0 ha
          refine ⟨fun u dd hdd => entry_ok_mono hd (h.1 u dd hdd),
            fun u dd hdd => entry_ok_mono hd (h.2.1 u dd hdd),
            fun u dd hdd => entry_ok_mono hd (h.2.2.1 u dd hdd), fun u dd hdd => ?_⟩
          by_cases hequ : user = u
          · subst hequ
            rw [show (alookup user (aset user _ c.rejected)) = _ from
              alookup_aset_self user _ c.rejected] at hdd
            cases hdd
            exact update_entry_ok hold hd
          · rw [alookup_aset_ne user u _ c.rejected hequ] at hdd
            exact entry_ok_mono hd (h.2.2.2 u dd hdd)
        · simp only [if_neg hknown]
          exact stats_lb_mono hd h
      · simp only [hu, if_false]
        exact stats_lb_mono hd h
  | raw => exact stats_lb_mono hd h
  | submission a b e f => exact stats_lb_mono hd h
  | lmtp qid user => exact stats_lb_mono hd h
  | dovecotLogin user rip => exact stats_lb_mono hd h
  | postgrey a r cn ca s u => exact stats_lb_mono hd h

lemma scan_postgrey_stats (cfg : Config) (d : Int) (body : Body) (c : Collector)
    {lb : Int} (h : stats_lb c lb) (hd : d ≤ lb) :
    stats_lb (scan_postgrey_line cfg d body c) d := by
  cases body with
  | postgrey action reason cn ca s u =>
    simp only [scan_postgrey_line]
    by_cases hu : user_match cfg u
    · simp only [hu, if_true]
      exact stats_lb_of_fields rfl rfl rfl rfl (stats_lb_mono hd h)
    · simp only [hu, if_false]
      exact stats_lb_mono hd h
  | raw => exact stats_lb_mono hd h
  | submission a b e f => exact stats_lb_mono hd h
  | lmtp qid user => exact stats_lb_mono hd h
  | dovecotLogin user rip => exact stats_lb_mono hd h
  | smtpdReject m s u z b => exact stats_lb_mono hd h

/-- Processing one classified line dated `d ≤ lb` moves the collector's
stat lower bound down to `d` and keeps every populated pair ordered. -/
lemma scan_line_stats_classified (cfg : Config) (d : Int) (svc : String) (body : Body)
    (c : Collector) {lb : Int} (h : stats_lb c lb) (hd : d ≤ lb) :
    stats_lb (scan_mail_log_line cfg (.classified d svc body) c).2 d := by
  have hbump : stats_lb { c with scan_count := c.scan_count + 1 } lb :=
    stats_lb_of_fields rfl rfl rfl rfl h
  simp only [scan_mail_log_line]
  by_cases hgt : d > cfg.start_date
  · simp only [hgt, if_true]
    exact stats_lb_mono hd hbump
  · simp only [hgt, if_false]
    by_cases hlt : d < cfg.end_date
    · simp only [hlt, if_true]
      exact stats_lb_mono hd hbump
    · simp only [hlt, if_false]
      unfold dispatch_service
      split
      · refine stats_lb_of_fields rfl rfl rfl rfl ?_
        split
        · exact scan_submission_stats cfg d body _ hbump hd
        · exact stats_lb_mono hd hbump
      · split
        · refine stats_lb_of_fields rfl rfl rfl rfl ?_
          split
          · exact scan_lmtp_stats cfg d body _ hbump hd
          · exact stats_lb_mono hd hbump
        · split
          · refine stats_lb_of_fields rfl rfl rfl rfl ?_
            split
            · exact scan_dovecot_stats cfg d body _ _ hbump hd
            · exact stats_lb_mono hd hbump
          · split
            · refine stats_lb_of_fields rfl rfl rfl rfl ?_
              split
              · exact scan_postgrey_stats cfg d body _ hbump hd
              · exact stats_lb_mono hd hbump
            · split
              · refine stats_lb_of_fields rfl rfl rfl rfl ?_
                split
                · exact scan_smtpd_stats cfg d body _ hbump hd
                · exact stats_lb_mono hd hbump
              · split
                · exact stats_lb_mono hd hbump
                · exact stats_lb_of_fields rfl rfl rfl rfl (stats_lb_mono hd hbump)

/-- The dates of the classified lines of a line list, in scan order. -/
def datesOf : List LineData → List Int
  | [] => []
  | .unmatched :: ls => datesOf ls
  | .classified d _ _ :: ls => d :: datesOf ls

/-- The dates of the classified lines of a file list, in scan order. -/
def datesOfFiles : List (List LineData) → List Int
  | [] => []
  | f :: fs => datesOf f ++ datesOfFiles fs

lemma scan_lines_stats (cfg : Config) :
    ∀ (lines : List LineData) (c : Collector) (stop : Bool) (lb : Int)
      (rest : List Int), stats_lb c lb →
      List.Chain' (· ≥ ·) (lb :: (datesOf lines ++ rest)) →
      ∃ lb', stats_lb (scan_lines cfg lines c stop).1 lb' ∧
        List.Chain' (· ≥ ·) (lb' :: rest)
  | [], c, stop, lb, rest, h, hch => ⟨lb, h, hch⟩
  | .unmatched :: ls, c, stop, lb, rest, h, hch => by
    have : scan_lines cfg (.unmatched :: ls) c stop = scan_lines cfg ls c false := rfl
    rw [this]
    exact scan_lines_stats cfg ls c false lb rest h hch
  | .classified d svc body :: ls, c, stop, lb, rest, h, hch => by
    have hch' : d ≥ lb → False ∨ True := fun _ => Or.inr trivial
    rw [show datesOf (.classified d svc body :: ls) = d :: datesOf ls from rfl,
      List.cons_append] at hch
    have hdl : lb ≥ d := (List.chain'_cons.mp hch).1
    have hch2 : List.Chain' (· ≥ ·) (d :: (datesOf ls ++ rest)) :=
      (List.chain'_cons.mp hch).2
    have hc2 : stats_lb (scan_mail_log_line cfg (.classified d svc body) c).2 d :=
      scan_line_stats_classified cfg d svc body c h hdl
    simp only [scan_lines]
    cases hr : scan_mail_log_line cfg (.classified d svc body) c with
    | mk fst c2 =>
      have hc2' : stats_lb c2 d := by rw [hr] at hc2; exact hc2
      cases fst with
      | true => exact scan_lines_stats cfg ls c2 false d rest hc2' hch2
      | false =>
        cases stop with
        | true =>
          refine ⟨d, hc2', ?_⟩
          have hsub : (d :: rest).Sublist (d :: (datesOf ls ++ rest)) :=
            List.Sublist.cons₂ d (List.sublist_append_right _ _)
          exact (List.chain'_iff_pairwise.mpr
            ((List.chain'_iff_pairwise.mp hch2).sublist hsub))
        | false => exact scan_lines_stats cfg ls c2 true d rest hc2' hch2

lemma scan_files_go_stats (cfg : Config) :
    ∀ (files : List (List LineData)) (c : Collector) (stop : Bool) (lb : Int),
      stats_lb c lb → List.Chain' (· ≥ ·) (lb :: datesOfFiles files) →
      ∃ lb', stats_lb (scan_files_go cfg files c stop) lb'
  | [], c, stop, lb, h, _ => ⟨lb, h⟩
  | f :: fs, c, stop, lb, h, hch => by
    rw [show datesOfFiles (f :: fs) = datesOf f ++ datesOfFiles fs from rfl] at hch
    obtain ⟨lb', h', hch'⟩ :=
      scan_lines_stats cfg f c stop lb (datesOfFiles fs) h hch
    simp only [scan_files_go]
    cases hr : scan_lines cfg f c stop with
    | mk c' pr =>
      have h'' : stats_lb c' lb' := by rw [hr] at h'; exact h'
      cases pr with
      | mk stop' halted =>
        cases halted with
        | true => exact ⟨lb', h''⟩
        | false => exact scan_files_go_stats cfg fs c' stop' lb' h'' hch'

/-- C7 counterexample (to "in any scan order"): feeding two sent-mail
observations for the same user in *increasing* date order (oldest first)
leaves the user's stat with `earliest = 8 > latest = 6`. -/
theorem c7_counterexample :
    ((alookup "u@x" (scan_files cfgS
        [[.classified 6 "postfix/submission/smtpd" (.submission "QA" "1.2.3.4" "PLAIN" "u@x"),
          .classified 8 "postfix/submission/smtpd" (.submission "QB" "5.6.7.8" "PLAIN" "u@x")]]
        initialCollector).sent_mail).map fun dd => (dd.earliest, dd.latest))
      = some (some 8, some 6)
    ∧ ¬ ((8 : Int) ≤ 6) := by
  decide

/-- C7 amended: if the scan reads the classified lines newest-first (their
dates are non-increasing across the whole traversal, as holds for
chronologically ordered log files read backwards), then after the scan every
populated per-user stat — sent mail, received mail, logins, rejected mail —
has `earliest ≤ latest`. -/
theorem c7_earliest_le_latest (cfg : Config) (files : List (List LineData))
    (h : List.Chain' (· ≥ ·) (datesOfFiles files)) :
    stats_ordered (scan_files cfg files initialCollector) := by
  have hinit : stats_lb initialCollector ((datesOfFiles files).headD 0) := by
    refine ⟨fun u d hd => ?_, fun u d hd => ?_, fun u d hd => ?_, fun u d hd => ?_⟩ <;>
      simp [initialCollector, alookup] at hd
  have hch : List.Chain' (· ≥ ·)
      ((datesOfFiles files).headD 0 :: datesOfFiles files) := by
    cases hdf : datesOfFiles files with
    | nil => simp
    | cons a t =>
      rw [hdf] at h
      simp only [List.headD_cons]
      exact List.chain'_cons.mpr ⟨le_refl a, h⟩
  obtain ⟨lb', h'⟩ := scan_files_go_stats cfg files initialCollector false
    ((datesOfFiles files).headD 0) hinit hch
  exact stats_lb_ordered h'

/-- Witness for C7's amended theorem at concrete inputs (two files, dates
read newest-first). -/
theorem c7_witness :
    stats_ordered (scan_files cfgS
      [[.classified 9 "postfix/submission/smtpd" (.submission "QA" "1.2.3.4" "PLAIN" "u@x"),
        .classified 8 "postfix/lmtp" (.lmtp "QB" "u@x")],
       [.classified 7 "imap-login" (.dovecotLogin "u@x" "127.0.0.1")]]
      initialCollector) :=
  c7_earliest_le_latest cfgS
    [[.classified 9 "postfix/submission/smtpd" (.submission "QA" "1.2.3.4" "PLAIN" "u@x"),
      .classified 8 "postfix/lmtp" (.lmtp "QB" "u@x")],
     [.classified 7 "imap-login" (.dovecotLogin "u@x" "127.0.0.1")]]
    (by simp [datesOfFiles, datesOf, List.chain'_cons])

/-! ## Claim C9: lemmas about `pySplit` and `fileLines` -/

/-- Boolean inequality against a separator character. -/
def neChar (sep : Char) : Char → Bool := fun c => c != sep

lemma neChar_iff {sep c : Char} : neChar sep c = true ↔ c ≠ sep := by
  simp [neChar]

lemma pySplit_ne_nil (sep : Char) (l : List Char) : pySplit sep l ≠ [] := by
  cases l with
  | nil => simp [pySplit]
  | cons c cs =>
    simp only [pySplit]
    cases h : pySplit sep cs with
    | nil => simp
    | cons a t => by_cases hc : c = sep <;> simp [hc]

lemma pySplit_cons_sep (sep : Char) (l : List Char) :
    pySplit sep (sep :: l) = [] :: pySplit sep l := by
  simp only [pySplit]
  cases h : pySplit sep l with
  | nil => exact absurd h (pySplit_ne_nil sep l)
  | cons a t => simp

lemma pySplit_cons_ne (sep c : Char) (l : List Char) (h : c ≠ sep) :
    pySplit sep (c :: l) = (c :: (pySplit sep l).headD []) :: (pySplit sep l).tail := by
  simp only [pySplit]
  cases hh : pySplit sep l with
  | nil => exact absurd hh (pySplit_ne_nil sep l)
  | cons a t => simp [h]

lemma pySplit_no_sep (sep : Char) (l : List Char) (h : sep ∉ l) : pySplit sep l = [l] := by
  induction l with
  | nil => rfl
  | cons c cs ih =>
    have hc : c ≠ sep := by
      rintro rfl
      exact h (List.mem_cons_self _ _)
    have hcs : sep ∉ cs := fun hm => h (List.mem_cons_of_mem _ hm)
    rw [pySplit_cons_ne sep c cs hc, ih hcs]
    rfl

lemma pySplit_append_sep (sep : Char) (xs ys : List Char) :
    pySplit sep (xs ++ sep :: ys) = pySplit sep xs ++ pySplit sep ys := by
  induction xs with
  | nil => simpa using pySplit_cons_sep sep ys
  | cons c cs ih =>
    by_cases hc : c = sep
    · subst hc
      rw [List.cons_append, pySplit_cons_sep, ih, pySplit_cons_sep]
      rfl
    · rw [List.cons_append, pySplit_cons_ne sep c _ hc, ih, pySplit_cons_ne sep c cs hc]
      cases hh : pySplit sep cs with
      | nil => exact absurd hh (pySplit_ne_nil sep cs)
      | cons a t => simp

lemma pySplit_headD (sep : Char) (l : List Char) :
    (pySplit sep l).headD [] = l.takeWhile (neChar sep) := by
  induction l with
  | nil => rfl
  | cons c cs ih =>
    by_cases hc : c = sep
    · subst hc
      rw [pySplit_cons_sep]
      simp [List.takeWhile_cons, neChar]
    · rw [pySplit_cons_ne sep c cs hc]
      simp only [List.headD_cons, ih]
      simp [List.takeWhile_cons, neChar, hc]

lemma appendLast_pySplit (sep : Char) (seg B : List Char) (h : sep ∉ seg) :
    appendLast seg (pySplit sep B) = pySplit sep (B ++ seg) := by
  induction B with
  | nil =>
    simp [pySplit, appendLast, pySplit_no_sep sep seg h]
  | cons c cs ih =>
    by_cases hc : c = sep
    · subst hc
      rw [pySplit_cons_sep, List.cons_append, pySplit_cons_sep, ← ih]
      cases hh : pySplit c cs with
      | nil => exact absurd hh (pySplit_ne_nil c cs)
      | cons a t => rfl
    · rw [pySplit_cons_ne sep c _ hc, List.cons_append, pySplit_cons_ne sep c _ hc, ← ih]
      cases hh : pySplit sep cs with
      | nil => exact absurd hh (pySplit_ne_nil sep cs)
      | cons a t =>
        cases t with
        | nil => simp [appendLast]
        | cons b ts => simp [appendLast]

lemma fileLines_of_last_ne (l : List Char) (h1 : l ≠ []) (h2 : l.getLast? ≠ some '\n') :
    fileLines l = pySplit '\n' l := by
  cases l with
  | nil => exact absurd rfl h1
  | cons c cs => simp [fileLines, h2]

lemma fileLines_of_last_newline (l : List Char) (h2 : l.getLast? = some '\n') :
    fileLines l = pySplit '\n' l.dropLast := by
  cases l with
  | nil => simp at h2
  | cons c cs => simp [fileLines, h2]

lemma fileLines_concat_newline (l : List Char) :
    fileLines (l ++ ['\n']) = pySplit '\n' l := by
  rw [fileLines_of_last_newline _ (List.getLast?_concat l), List.dropLast_concat]

lemma pySplit_concat_newline (l : List Char) :
    pySplit '\n' (l ++ ['\n']) = pySplit '\n' l ++ [[]] := by
  simpa using pySplit_append_sep '\n' l []

/-- No two adjacent newline characters. -/
def noNN (l : List Char) : Prop :=
  List.Chain' (fun a b => ¬(a = '\n' ∧ b = '\n')) l

/-- Splitting a list that violates `noNN` at a double newline. -/
lemma exists_split_of_not_noNN (l : List Char) (h : ¬ noNN l) :
    ∃ u v, l = u ++ '\n' :: '\n' :: v := by
  induction l with
  | nil => exact absurd List.chain'_nil h
  | cons c cs ih =>
    cases cs with
    | nil => exact absurd (List.chain'_singleton c) h
    | cons b t =>
      by_cases hcb : c = '\n' ∧ b = '\n'
      · exact ⟨[], t, by simp [hcb.1, hcb.2]⟩
      · have hbad : ¬ noNN (b :: t) := by
          intro hgood
          exact h (List.chain'_cons.mpr ⟨hcb, hgood⟩)
        obtain ⟨u, v, huv⟩ := ih hbad
        exact ⟨c :: u, v, by simp [huv]⟩

/-- A file with no empty line does not begin with a newline. -/
lemma head_ne_newline_of_clean (content : List Char) (hne : content ≠ [])
    (hclean : [] ∉ fileLines content) : content.head? ≠ some '\n' := by
  cases content with
  | nil => exact absurd rfl hne
  | cons c cs =>
    intro hc
    simp only [List.head?_cons, Option.some.injEq] at hc
    subst hc
    apply hclean
    by_cases hlast : ('\n' :: cs).getLast? = some '\n'
    · rw [fileLines_of_last_newline _ hlast]
      cases cs with
      | nil => simp [pySplit]
      | cons b t =>
        rw [show ('\n' :: b :: t).dropLast = '\n' :: (b :: t).dropLast from rfl,
          pySplit_cons_sep]
        simp
    · rw [fileLines_of_last_ne _ (by simp) hlast, pySplit_cons_sep]
      simp

/-- A file with no empty line has no two adjacent newlines. -/
lemma noNN_of_clean (content : List Char) (hclean : [] ∉ fileLines content) :
    noNN content := by
  by_contra h
  obtain ⟨u, v, rfl⟩ := exists_split_of_not_noNN content h
  apply hclean
  by_cases hv : v = []
  · subst hv
    rw [show u ++ ['\n', '\n'] = (u ++ ['\n']) ++ ['\n'] by simp,
      fileLines_concat_newline, pySplit_concat_newline]
    simp
  · by_cases hl : (u ++ '\n' :: '\n' :: v).getLast? = some '\n'
    · rw [fileLines_of_last_newline _ hl,
        List.dropLast_append_of_ne_nil u (by simp),
        show ('\n' :: '\n' :: v).dropLast = '\n' :: ('\n' :: v).dropLast from rfl,
        pySplit_append_sep]
      have : ('\n' :: v).dropLast = '\n' :: v.dropLast := by
        cases v with
        | nil => exact absurd rfl hv
        | cons a t => rfl
      rw [this, pySplit_cons_sep]
      simp
    · rw [fileLines_of_last_ne _ (by simp) hl, pySplit_append_sep, pySplit_cons_sep]
      simp

/-- The pieces of a clean chunk (no leading, trailing, or doubled newline) are
all non-empty. -/
lemma nil_not_mem_pySplit : ∀ (n : Nat) (x : List Char), x.length ≤ n → x ≠ [] →
    x.head? ≠ some '\n' → x.getLast? ≠ some '\n' → noNN x → [] ∉ pySplit '\n' x := by
  intro n
  induction n with
  | zero =>
    intro x hlen hne _ _ _
    cases x with
    | nil => exact absurd rfl hne
    | cons c cs => simp at hlen
  | succ n ih =>
    intro x hlen hne hhead hlast hnn
    cases x with
    | nil => exact absurd rfl hne
    | cons c cs =>
      have hc : c ≠ '\n' := by
        intro h
        exact hhead (by simp [h])
      cases cs with
      | nil =>
        rw [pySplit_no_sep '\n' [c] (by simp [Ne.symm hc])]
        simp
      | cons b t =>
        rw [pySplit_cons_ne '\n' c _ hc]
        intro hmem
        rcases List.mem_cons.mp hmem with h1 | h1
        · exact (List.cons_ne_nil _ _) h1.symm
        · by_cases hb : b = '\n'
          · subst hb
            rw [pySplit_cons_sep] at h1
            simp only [List.tail_cons] at h1
            cases t with
            | nil => exact hlast (by simp)
            | cons d ts =>
              have hnn' : noNN (d :: ts) := (List.Chain'.tail hnn).tail
              have hd : d ≠ '\n' := by
                have hrel := (List.chain'_cons.mp (List.Chain'.tail hnn)).1
                intro h0
                exact hrel ⟨rfl, h0⟩
              have hlast' : (d :: ts).getLast? ≠ some '\n' := by
                rw [List.getLast?_cons_cons, List.getLast?_cons_cons] at hlast
                exact hlast
              refine ih (d :: ts) ?_ (by simp) (by simp [hd]) hlast' hnn' h1
              simp only [List.length_cons] at hlen ⊢
              omega
          · have hnotin : [] ∉ pySplit '\n' (b :: t) := by
              refine ih (b :: t) ?_ (by simp) (by simp [hb]) ?_ (List.Chain'.tail hnn)
              · simp only [List.length_cons] at hlen ⊢
                omega
              · rw [List.getLast?_cons_cons] at hlast
                exact hlast
            exact hnotin (List.mem_of_mem_tail h1)

/-- Splitting the line decomposition at a newline boundary: the lines of
`X ++ '\n' :: R` are the lines of `X` followed by the non-empty split pieces
of `R` (the filter removes exactly the artefact of a final line terminator). -/
lemma fileLines_append_split (X R : List Char) (hx : X ≠ [])
    (hlast : X.getLast? ≠ some '\n') (hnn : noNN ('\n' :: R)) :
    fileLines (X ++ '\n' :: R)
      = fileLines X ++ (pySplit '\n' R).filter (fun l => !l.isEmpty) := by
  have hR : R.head? ≠ some '\n' := by
    cases R with
    | nil => simp
    | cons a t =>
      have hrel := (List.chain'_cons.mp hnn).1
      intro h0
      simp only [List.head?_cons, Option.some.injEq] at h0
      exact hrel ⟨rfl, h0⟩
  have hnnR : noNN R := List.Chain'.tail hnn
  by_cases hRnil : R = []
  · subst hRnil
    rw [show X ++ ['\n'] = X ++ ['\n'] from rfl, fileLines_concat_newline,
      fileLines_of_last_ne X hx hlast]
    simp [pySplit]
  · by_cases hRlast : R.getLast? = some '\n'
    · have hRsplit : R.dropLast ++ ['\n'] = R :=
        List.dropLast_append_getLast? '\n' (by rw [hRlast]; rfl)
      have hDne : R.dropLast ≠ [] := by
        intro h0
        rw [h0, List.nil_append] at hRsplit
        rw [← hRsplit] at hR
        simp at hR
      have hDlast : R.dropLast.getLast? ≠ some '\n' := by
        intro hD
        have hz : R.dropLast.dropLast ++ ['\n'] = R.dropLast :=
          List.dropLast_append_getLast? '\n' (by rw [hD]; rfl)
      -- then `R` ends in two newlines, contradicting `noNN R`
        have hsuf : ['\n', '\n'] <:+ R := by
          refine ⟨R.dropLast.dropLast, ?_⟩
          rw [show R.dropLast.dropLast ++ ['\n', '\n']
              = (R.dropLast.dropLast ++ ['\n']) ++ ['\n'] by simp, hz, hRsplit]
        exact (List.chain'_pair.mp (List.Chain'.suffix hnnR hsuf)) ⟨rfl, rfl⟩
      have hDhead : R.dropLast.head? ≠ some '\n' := by
        rw [← hRsplit, List.head?_append_of_ne_nil _ hDne] at hR
        exact hR
      have hDnn : noNN R.dropLast := List.Chain'.prefix hnnR (List.dropLast_prefix R)
      have hfull_last : (X ++ '\n' :: R).getLast? = some '\n' := by
        rw [List.getLast?_append_of_ne_nil X (by simp)]
        cases R with
        | nil => exact absurd rfl hRnil
        | cons a t => rw [List.getLast?_cons_cons]; exact hRlast
      rw [fileLines_of_last_newline _ hfull_last,
        List.dropLast_append_of_ne_nil X (by simp)]
      have hdl2 : ('\n' :: R).dropLast = '\n' :: R.dropLast := by
        cases R with
        | nil => exact absurd rfl hRnil
        | cons a t => rfl
      rw [hdl2, pySplit_append_sep, fileLines_of_last_ne X hx hlast]
      congr 1
      conv_rhs => rw [← hRsplit]
      rw [pySplit_concat_newline, List.filter_append]
      have hself : (pySplit '\n' R.dropLast).filter (fun l => !l.isEmpty)
          = pySplit '\n' R.dropLast := by
        refine List.filter_eq_self.mpr fun a ha => ?_
        have hane : a ≠ [] := by
          intro h0
          rw [h0] at ha
          exact nil_not_mem_pySplit R.dropLast.length R.dropLast le_rfl hDne hDhead
            hDlast hDnn ha
        simpa [List.isEmpty_iff] using hane
      rw [hself]
      simp
    · have hfull_last : (X ++ '\n' :: R).getLast? ≠ some '\n' := by
        rw [List.getLast?_append_of_ne_nil X (by simp)]
        cases R with
        | nil => exact absurd rfl hRnil
        | cons a t => rw [List.getLast?_cons_cons]; exact hRlast
      rw [fileLines_of_last_ne _ (by simp) hfull_last, pySplit_append_sep,
        fileLines_of_last_ne X hx hlast]
      congr 1
      refine (List.filter_eq_self.mpr fun a ha => ?_).symm
      have hane : a ≠ [] := by
        intro h0
        rw [h0] at ha
        exact nil_not_mem_pySplit R.length R le_rfl hRnil hR hRlast hnnR ha
      simpa [List.isEmpty_iff] using hane

lemma mem_of_getLast?_eq {l : List Char} {a : Char} (h : l.getLast? = some a) :
    a ∈ l := by
  obtain ⟨hne, hx⟩ := List.mem_getLast?_eq_getLast (show a ∈ l.getLast? by rw [h]; rfl)
  rw [hx]
  exact List.getLast_mem hne

/-- In a list without adjacent newlines, a part ending in a newline is never
followed by a part starting with one. -/
lemma noNN_no_adjacent {content A B : List Char} (hc : noNN content)
    (hsplit : content = A ++ B) :
    ¬ (A.getLast? = some '\n' ∧ B.head? = some '\n') := by
  rintro ⟨hA, hB⟩
  have hA' : A.dropLast ++ ['\n'] = A := List.dropLast_append_getLast? '\n' (by rw [hA]; rfl)
  cases B with
  | nil => simp at hB
  | cons b t =>
    simp only [List.head?_cons, Option.some.injEq] at hB
    subst hB
    have hsuf : '\n' :: '\n' :: t <:+ content := by
      refine ⟨A.dropLast, ?_⟩
      rw [hsplit, ← hA']
      simp
    have hpair := List.Chain'.suffix hc hsuf
    exact (List.chain'_cons.mp hpair).1 ⟨rfl, rfl⟩

lemma dropWhile_eq_cons_head {p : Char → Bool} {l R : List Char} {c : Char}
    (h : l.dropWhile p = c :: R) : p c = false := by
  induction l with
  | nil => simp [List.dropWhile] at h
  | cons a t ih =>
    rw [List.dropWhile_cons] at h
    by_cases hp : p a
    · rw [if_pos hp] at h
      exact ih h
    · rw [if_neg hp] at h
      cases h
      simpa using hp

lemma newline_not_mem_takeWhile (l : List Char) :
    '\n' ∉ l.takeWhile (neChar '\n') := by
  intro h
  have := List.mem_takeWhile_imp h
  simp [neChar] at this

lemma takeWhile_neChar_idem (l : List Char) :
    (l.takeWhile (neChar '\n')).takeWhile (neChar '\n') = l.takeWhile (neChar '\n') :=
  List.takeWhile_eq_self_iff.mpr fun _ hx => List.mem_takeWhile_imp hx

/-- Stitching a separator-free continuation onto a list does not change which
prefix the `takeWhile` captures beyond it. -/
lemma takeWhile_append_takeWhile (B P : List Char) :
    (B ++ P.takeWhile (neChar '\n')).takeWhile (neChar '\n')
      = (B ++ P).takeWhile (neChar '\n') := by
  rw [List.takeWhile_append, List.takeWhile_append]
  split
  · rw [takeWhile_neChar_idem]
  · rfl

/-- If `B` contains a newline, the `takeWhile` of `B ++ P` stops inside `B`. -/
lemma takeWhile_append_of_mem (B P : List Char) (h : '\n' ∈ B) :
    (B ++ P).takeWhile (neChar '\n') = B.takeWhile (neChar '\n') := by
  rw [List.takeWhile_append]
  split
  · rename_i hlen
    have heq : B.takeWhile (neChar '\n') = B :=
      List.IsPrefix.eq_of_length (List.takeWhile_prefix _) hlen
    exfalso
    apply newline_not_mem_takeWhile B
    rw [heq]
    exact h
  · rfl

/-- The output algebra of one loop iteration: the lines of a boundary prefix
`A ++ Bt` are the lines of the shorter boundary prefix `A ++ takeWhile Bt`
followed by the non-empty later split pieces of `Bt`. -/
lemma fileLines_chunk (A Bt : List Char) (hnnB : noNN Bt)
    (hhead : A = [] → Bt.head? ≠ some '\n')
    (hadj : ¬ (A.getLast? = some '\n' ∧ Bt.head? = some '\n')) :
    fileLines (A ++ Bt)
      = fileLines (A ++ Bt.takeWhile (neChar '\n'))
        ++ ((pySplit '\n' Bt).tail).filter (fun l => !l.isEmpty) := by
  cases hsep : Bt.dropWhile (neChar '\n') with
  | nil =>
    have hTW : Bt.takeWhile (neChar '\n') = Bt := by
      conv_rhs => rw [← List.takeWhile_append_dropWhile (neChar '\n') Bt]
      rw [hsep, List.append_nil]
    have hnomem : '\n' ∉ Bt := by
      rw [← hTW]
      exact newline_not_mem_takeWhile Bt
    rw [hTW, pySplit_no_sep '\n' Bt hnomem]
    simp
  | cons nl R' =>
    have hnl : nl = '\n' := by
      have := dropWhile_eq_cons_head hsep
      simpa [neChar] using this
    subst hnl
    have hBt : Bt = Bt.takeWhile (neChar '\n') ++ '\n' :: R' := by
      conv_lhs => rw [← List.takeWhile_append_dropWhile (neChar '\n') Bt]
      rw [hsep]
    set seg2 := Bt.takeWhile (neChar '\n') with hseg2
    have hBtHead : seg2 = [] → Bt.head? = some '\n' := by
      intro h0
      rw [hBt, h0, List.nil_append]
      rfl
    have hX : A ++ seg2 ≠ [] := by
      intro h0
      rw [List.append_eq_nil] at h0
      exact (hhead h0.1) (hBtHead h0.2)
    have hlastX : (A ++ seg2).getLast? ≠ some '\n' := by
      cases hs2 : seg2 with
      | nil =>
        rw [List.append_nil]
        intro hAl
        exact hadj ⟨hAl, hBtHead hs2⟩
      | cons s ss =>
        rw [List.getLast?_append_of_ne_nil A (by simp)]
        intro hlast
        have : '\n' ∈ seg2 := by
          rw [hs2]
          exact mem_of_getLast?_eq hlast
        exact newline_not_mem_takeWhile Bt this
    have hnnR' : noNN ('\n' :: R') := by
      refine List.Chain'.suffix hnnB ?_
      rw [← hsep]
      exact List.dropWhile_suffix _
    have hmain := fileLines_append_split (A ++ seg2) R' hX hlastX hnnR'
    rw [hBt, ← List.append_assoc, hmain]
    congr 1
    have hps : pySplit '\n' (seg2 ++ '\n' :: R') = [seg2] ++ pySplit '\n' R' := by
      rw [pySplit_append_sep, pySplit_no_sep '\n' seg2 (newline_not_mem_takeWhile Bt)]
    rw [hps]
    rfl

/-- The state invariant of the backwards-reading loop: the saved `segment` is
exactly the (possibly incomplete) first line of the already-processed suffix
of the file. -/
def rrlInv (content : List Char) (remaining : Int) :
    Option (List Char) → Prop
  | none => remaining = (content.length : Int)
  | some s => remaining.toNat < content.length ∧
      s = (content.drop remaining.toNat).takeWhile (neChar '\n')

/-- Exiting the loop: yielding the final saved segment produces exactly the
remaining (first) line of the file. -/
lemma rrl_base (content : List Char) (hne : content ≠ [])
    (hhead : content.head? ≠ some '\n') (segment : Option (List Char))
    (remaining : Int) (hr : remaining ≤ 0)
    (hseg : rrlInv content remaining segment) :
    rrlFinish segment
      = (fileLines (content.take remaining.toNat ++ segment.getD [])).reverse := by
  cases segment with
  | none =>
    exfalso
    have h1 : remaining = (content.length : Int) := hseg
    have h2 : content.length = 0 := by omega
    exact hne (List.length_eq_zero.mp h2)
  | some s =>
    have h0 : remaining.toNat = 0 := Int.toNat_of_nonpos hr
    obtain ⟨-, hs⟩ := hseg
    rw [h0] at hs
    simp only [h0, List.take_zero, List.nil_append, Option.getD_some, rrlFinish]
    rw [List.drop_zero] at hs
    have hsne : s ≠ [] := by
      cases content with
      | nil => exact absurd rfl hne
      | cons c cs =>
        have hc : c ≠ '\n' := by
          intro h
          exact hhead (by simp [h])
        rw [hs, List.takeWhile_cons, if_pos (by simp [neChar, hc])]
        simp
    have hnomem : '\n' ∉ s := hs ▸ newline_not_mem_takeWhile content
    have hlast : s.getLast? ≠ some '\n' := fun h => hnomem (mem_of_getLast?_eq h)
    rw [fileLines_of_last_ne s hsne hlast, pySplit_no_sep '\n' s hnomem]
    rfl

lemma rrlGo_step_none (content : List Char) (bs fuel : Nat) (remaining : Int)
    (offset : Nat) (hr : ¬ remaining ≤ 0) :
    rrlGo content bs (fuel + 1) remaining offset none =
      ((((pySplit '\n' ((content.drop (content.length - min content.length (offset + bs))).take
              (min remaining.toNat bs))).drop 1).reverse).filter fun l => !l.isEmpty)
        ++ rrlGo content bs fuel (remaining - bs) (min content.length (offset + bs))
            (some ((pySplit '\n' ((content.drop (content.length - min content.length (offset + bs))).take
              (min remaining.toNat bs))).headD [])) := by
  simp only [rrlGo, if_neg hr, List.nil_append]

lemma rrlGo_step_stitch (content : List Char) (bs fuel : Nat) (remaining : Int)
    (offset : Nat) (seg : List Char) (hr : ¬ remaining ≤ 0)
    (hbuf : ((content.drop (content.length - min content.length (offset + bs))).take
        (min remaining.toNat bs)).getLast? ≠ some '\n') :
    rrlGo content bs (fuel + 1) remaining offset (some seg) =
      ((((appendLast seg (pySplit '\n'
              ((content.drop (content.length - min content.length (offset + bs))).take
                (min remaining.toNat bs)))).drop 1).reverse).filter fun l => !l.isEmpty)
        ++ rrlGo content bs fuel (remaining - bs) (min content.length (offset + bs))
            (some ((appendLast seg (pySplit '\n'
              ((content.drop (content.length - min content.length (offset + bs))).take
                (min remaining.toNat bs)))).headD [])) := by
  simp only [rrlGo, if_neg hr, if_pos hbuf, List.nil_append]

lemma rrlGo_step_yield (content : List Char) (bs fuel : Nat) (remaining : Int)
    (offset : Nat) (seg : List Char) (hr : ¬ remaining ≤ 0)
    (hbuf : ((content.drop (content.length - min content.length (offset + bs))).take
        (min remaining.toNat bs)).getLast? = some '\n') :
    rrlGo content bs (fuel + 1) remaining offset (some seg) =
      [seg] ++ ((((pySplit '\n'
              ((content.drop (content.length - min content.length (offset + bs))).take
                (min remaining.toNat bs))).drop 1).reverse).filter fun l => !l.isEmpty)
        ++ rrlGo content bs fuel (remaining - bs) (min content.length (offset + bs))
            (some ((pySplit '\n'
              ((content.drop (content.length - min content.length (offset + bs))).take
                (min remaining.toNat bs))).headD [])) := by
  simp only [rrlGo, if_neg hr, if_neg (not_not_intro hbuf), List.nil_append]

lemma tail_append_of_ne_nil {α : Type} (l₁ l₂ : List α) (h : l₁ ≠ []) :
    (l₁ ++ l₂).tail = l₁.tail ++ l₂ := by
  cases l₁ with
  | nil => exact absurd rfl h
  | cons a t => rfl

/-- Correctness of the backwards block-reading loop: from any reachable state,
the loop yields exactly the reversed lines of the not-yet-emitted boundary
prefix of the file. -/
lemma rrlGo_correct (content : List Char) (bs : Nat) (hbs : 1 ≤ bs)
    (hne : content ≠ []) (hhead : content.head? ≠ some '\n') (hnn : noNN content) :
    ∀ (fuel : Nat) (remaining : Int) (offset : Nat) (segment : Option (List Char)),
    remaining.toNat ≤ fuel → remaining ≤ (content.length : Int) →
    offset = content.length - remaining.toNat →
    rrlInv content remaining segment →
    rrlGo content bs fuel remaining offset segment
      = (fileLines (content.take remaining.toNat ++ segment.getD [])).reverse := by
  intro fuel
  induction fuel with
  | zero =>
    intro remaining offset segment hfuel hrle hoff hseg
    have hr : remaining ≤ 0 := by omega
    exact rrl_base content hne hhead segment remaining hr hseg
  | succ fuel ih =>
    intro remaining offset segment hfuel hrle hoff hseg
    by_cases hr : remaining ≤ 0
    · have heq : rrlGo content bs (fuel + 1) remaining offset segment
          = rrlFinish segment := by
        simp [rrlGo, hr]
      rw [heq]
      exact rrl_base content hne hhead segment remaining hr hseg
    · have hstart1 : 1 ≤ remaining.toNat := by omega
      have hstartle : remaining.toNat ≤ content.length := by omega
      have e1 : min content.length (offset + bs)
          = content.length - (remaining.toNat - min remaining.toNat bs) := by omega
      have e2 : content.length
            - (content.length - (remaining.toNat - min remaining.toNat bs))
          = remaining.toNat - min remaining.toNat bs := by omega
      cases segment with
      | none =>
        have hstartn : remaining.toNat = content.length := by
          have hx : remaining = (content.length : Int) := hseg
          omega
        rw [rrlGo_step_none content bs fuel remaining offset hr, e1, e2]
        set d := min remaining.toNat bs with hd
        set start' := remaining.toNat - d with hstart'
        generalize hB : (content.drop start').take d = B
        have hlenB : B.length = d := by
          rw [← hB, List.length_take, List.length_drop]
          omega
        have hBne : B ≠ [] := by
          intro h0
          rw [h0] at hlenB
          simp only [List.length_nil] at hlenB
          omega
        have hBfull : B = content.drop start' := by
          rw [← hB]
          apply List.take_of_length_le
          rw [List.length_drop]
          omega
        have hAB : content.take start' ++ B = content.take remaining.toNat := by
          rw [← hB, ← List.take_add]
          congr 1
          omega
        have ht : (remaining - (bs : Int)).toNat = start' := by omega
        have hseg' : (pySplit '\n' B).headD []
            = (content.drop (remaining - (bs : Int)).toNat).takeWhile (neChar '\n') := by
          rw [pySplit_headD, hBfull, ht]
        have hrec := ih (remaining - bs) (content.length - start')
          (some ((pySplit '\n' B).headD [])) (by omega) (by omega) (by omega)
          ⟨by omega, hseg'⟩
        rw [hrec, ht]
        simp only [Option.getD_some, Option.getD_none, List.append_nil]
        rw [List.drop_one, List.filter_reverse, ← List.reverse_append]
        refine congrArg List.reverse ?_
        have hnnB : noNN B := by
          rw [hBfull]
          exact List.Chain'.drop hnn start'
        have hheadA : content.take start' = [] → B.head? ≠ some '\n' := by
          intro h0
          rcases List.take_eq_nil_iff.mp h0 with h1 | h1
          · rw [hBfull, h1, List.drop_zero]
            exact hhead
          · exact absurd h1 hne
        have hadj : ¬ ((content.take start').getLast? = some '\n'
            ∧ B.head? = some '\n') := by
          rw [hBfull]
          exact noNN_no_adjacent hnn (List.take_append_drop start' content).symm
        have hchunk := fileLines_chunk (content.take start') B hnnB hheadA hadj
        rw [pySplit_headD, ← hAB]
        exact hchunk.symm
      | some seg =>
        obtain ⟨hlt, hsegEq⟩ := hseg
        have hsegNoNl : '\n' ∉ seg := by
          rw [hsegEq]
          exact newline_not_mem_takeWhile _
        by_cases hbuf : ((content.drop (content.length - min content.length (offset + bs))).take
            (min remaining.toNat bs)).getLast? = some '\n'
        · -- the chunk ends exactly at a line boundary: yield the saved segment
          rw [rrlGo_step_yield content bs fuel remaining offset seg hr hbuf]
          rw [e1, e2] at hbuf ⊢
          set d := min remaining.toNat bs with hd
          set start' := remaining.toNat - d with hstart'
          generalize hB : (content.drop start').take d = B
          rw [hB] at hbuf
          have hlenB : B.length = d := by
            rw [← hB, List.length_take, List.length_drop]
            omega
          have hBne : B ≠ [] := by
            intro h0
            rw [h0] at hlenB
            simp only [List.length_nil] at hlenB
            omega
          have hAB : content.take start' ++ B = content.take remaining.toNat := by
            rw [← hB, ← List.take_add]
            congr 1
            omega
          have hBP : content.drop start' = B ++ content.drop remaining.toNat := by
            rw [← hB]
            conv_lhs => rw [← List.take_append_drop d (content.drop start')]
            rw [List.drop_drop]
            have hdd : start' + d = remaining.toNat := by omega
            rw [hdd]
          have ht : (remaining - (bs : Int)).toNat = start' := by omega
          have hmemB : '\n' ∈ B := mem_of_getLast?_eq hbuf
          have hseg' : (pySplit '\n' B).headD []
              = (content.drop (remaining - (bs : Int)).toNat).takeWhile (neChar '\n') := by
            rw [pySplit_headD, ht, hBP]
            exact (takeWhile_append_of_mem B (content.drop remaining.toNat) hmemB).symm
          have hrec := ih (remaining - bs) (content.length - start')
            (some ((pySplit '\n' B).headD [])) (by omega) (by omega) (by omega)
            ⟨by omega, hseg'⟩
          rw [hrec, ht]
          simp only [Option.getD_some]
          -- the saved segment is non-empty: the character before it is a
          -- newline, so by `noNN` the character starting it is not
          have hlastAB : (content.take remaining.toNat).getLast? = some '\n' := by
            rw [← hAB, List.getLast?_append_of_ne_nil _ hBne]
            exact hbuf
          have hPhead : (content.drop remaining.toNat).head? ≠ some '\n' := by
            have hADJ := noNN_no_adjacent hnn
              (List.take_append_drop remaining.toNat content).symm
            intro h0
            exact hADJ ⟨hlastAB, h0⟩
          have hsegne : seg ≠ [] := by
            cases hP : content.drop remaining.toNat with
            | nil =>
              have := congrArg List.length hP
              simp only [List.length_drop, List.length_nil] at this
              omega
            | cons c t =>
              rw [hP] at hsegEq hPhead
              have hc : c ≠ '\n' := by
                intro h0
                exact hPhead (by simp [h0])
              rw [hsegEq, List.takeWhile_cons, if_pos (by simp [neChar, hc])]
              simp
          -- assemble via the chunk decomposition of `B ++ seg`
          have hnnBseg : noNN (B ++ seg) := by
            have h1 : noNN (content.drop start') := List.Chain'.drop hnn start'
            rw [hBP] at h1
            refine List.Chain'.prefix h1 ?_
            obtain ⟨t2, ht2⟩ := List.takeWhile_prefix (neChar '\n')
              (l := content.drop remaining.toNat)
            exact ⟨t2, by rw [List.append_assoc, ← hsegEq] at *; rw [← ht2, hsegEq]⟩
          have hheadBseg : (B ++ seg).head? = (content.drop start').head? := by
            rw [List.head?_append_of_ne_nil B hBne, ← hB, List.head?_take,
              if_neg (by omega)]
          have hheadA : content.take start' = [] → (B ++ seg).head? ≠ some '\n' := by
            intro h0
            rcases List.take_eq_nil_iff.mp h0 with h1 | h1
            · rw [hheadBseg, h1, List.drop_zero]
              exact hhead
            · exact absurd h1 hne
          have hadj : ¬ ((content.take start').getLast? = some '\n'
              ∧ (B ++ seg).head? = some '\n') := by
            rw [hheadBseg]
            exact noNN_no_adjacent hnn (List.take_append_drop start' content).symm
          have hchunk := fileLines_chunk (content.take start') (B ++ seg)
            hnnBseg hheadA hadj
          have hTWeq : (B ++ seg).takeWhile (neChar '\n') = B.takeWhile (neChar '\n') :=
            takeWhile_append_of_mem B seg hmemB
          have hZ : B.dropLast ++ ['\n'] = B :=
            List.dropLast_append_getLast? '\n' (by rw [hbuf]; rfl)
          have hBsegSplit : pySplit '\n' (B ++ seg)
              = pySplit '\n' B.dropLast ++ [seg] := by
            conv_lhs => rw [← hZ]
            rw [List.append_assoc]
            rw [show ['\n'] ++ seg = '\n' :: seg from rfl, pySplit_append_sep,
              pySplit_no_sep '\n' seg hsegNoNl]
          have hBsplit : pySplit '\n' B = pySplit '\n' B.dropLast ++ [[]] := by
            conv_lhs => rw [← hZ]
            exact pySplit_concat_newline _
          have hfilter : ((pySplit '\n' (B ++ seg)).tail).filter (fun l => !l.isEmpty)
              = ((pySplit '\n' B).tail).filter (fun l => !l.isEmpty) ++ [seg] := by
            rw [hBsegSplit, hBsplit,
              tail_append_of_ne_nil _ _ (pySplit_ne_nil '\n' B.dropLast),
              tail_append_of_ne_nil _ _ (pySplit_ne_nil '\n' B.dropLast),
              List.filter_append, List.filter_append]
            simp [List.isEmpty_iff, hsegne]
          have hfinal : fileLines (content.take start' ++ (B ++ seg))
              = fileLines (content.take start' ++ B.takeWhile (neChar '\n'))
                ++ ((pySplit '\n' B).tail).filter (fun l => !l.isEmpty) ++ [seg] := by
            rw [hchunk, hTWeq, hfilter, List.append_assoc]
          rw [pySplit_headD]
          rw [show content.take remaining.toNat ++ seg
              = content.take start' ++ (B ++ seg) by rw [← List.append_assoc, hAB]]
          rw [hfinal, List.drop_one, List.filter_reverse]
          simp [List.reverse_append]
        · -- stitch the saved segment onto the last line of the chunk
          rw [rrlGo_step_stitch content bs fuel remaining offset seg hr hbuf]
          rw [e1, e2] at hbuf ⊢
          set d := min remaining.toNat bs with hd
          set start' := remaining.toNat - d with hstart'
          generalize hB : (content.drop start').take d = B
          rw [hB] at hbuf
          have hlenB : B.length = d := by
            rw [← hB, List.length_take, List.length_drop]
            omega
          have hBne : B ≠ [] := by
            intro h0
            rw [h0] at hlenB
            simp only [List.length_nil] at hlenB
            omega
          have hAB : content.take start' ++ B = content.take remaining.toNat := by
            rw [← hB, ← List.take_add]
            congr 1
            omega
          have hBP : content.drop start' = B ++ content.drop remaining.toNat := by
            rw [← hB]
            conv_lhs => rw [← List.take_append_drop d (content.drop start')]
            rw [List.drop_drop]
            have hdd : start' + d = remaining.toNat := by omega
            rw [hdd]
          have ht : (remaining - (bs : Int)).toNat = start' := by omega
          rw [appendLast_pySplit '\n' seg B hsegNoNl]
          have hseg' : (pySplit '\n' (B ++ seg)).headD []
              = (content.drop (remaining - (bs : Int)).toNat).takeWhile (neChar '\n') := by
            rw [pySplit_headD, ht, hBP, hsegEq]
            exact takeWhile_append_takeWhile B (content.drop remaining.toNat)
          have hrec := ih (remaining - bs) (content.length - start')
            (some ((pySplit '\n' (B ++ seg)).headD [])) (by omega) (by omega) (by omega)
            ⟨by omega, hseg'⟩
          rw [hrec, ht]
          simp only [Option.getD_some]
          have hnnBseg : noNN (B ++ seg) := by
            have h1 : noNN (content.drop start') := List.Chain'.drop hnn start'
            rw [hBP] at h1
            refine List.Chain'.prefix h1 ?_
            obtain ⟨t2, ht2⟩ := List.takeWhile_prefix (neChar '\n')
              (l := content.drop remaining.toNat)
            exact ⟨t2, by rw [List.append_assoc, ← hsegEq] at *; rw [← ht2, hsegEq]⟩
          have hheadBseg : (B ++ seg).head? = (content.drop start').head? := by
            rw [List.head?_append_of_ne_nil B hBne, ← hB, List.head?_take,
              if_neg (by omega)]
          have hheadA : content.take start' = [] → (B ++ seg).head? ≠ some '\n' := by
            intro h0
            rcases List.take_eq_nil_iff.mp h0 with h1 | h1
            · rw [hheadBseg, h1, List.drop_zero]
              exact hhead
            · exact absurd h1 hne
          have hadj : ¬ ((content.take start').getLast? = some '\n'
              ∧ (B ++ seg).head? = some '\n') := by
            rw [hheadBseg]
            exact noNN_no_adjacent hnn (List.take_append_drop start' content).symm
          have hchunk := fileLines_chunk (content.take start') (B ++ seg)
            hnnBseg hheadA hadj
          rw [List.drop_one, List.filter_reverse, ← List.reverse_append]
          refine congrArg List.reverse ?_
          rw [pySplit_headD]
          rw [show content.take remaining.toNat ++ seg
              = content.take start' ++ (B ++ seg) by rw [← List.append_assoc, hAB]]
          exact hchunk.symm

/-- C9 counterexample: a file containing an empty line.  `reverse_readline`
(with its default 8192-byte buffer) silently drops the empty line, so its
output is *not* the file's text lines in reverse physical order. -/
theorem c9_counterexample :
    reverse_readline ['a', '\n', '\n', 'b'] 8192 = [['b'], ['a']]
    ∧ (fileLines ['a', '\n', '\n', 'b']).reverse = [['b'], [], ['a']]
    ∧ reverse_readline ['a', '\n', '\n', 'b'] 8192
        ≠ (fileLines ['a', '\n', '\n', 'b']).reverse := by
  decide

/-- C9 amended: for every positive buffer size, on every file none of whose
physical lines is empty, `reverse_readline` yields exactly the file's text
lines in reverse physical order; in particular an empty file yields an empty
sequence, and a file whose final line has no trailing line terminator still
yields that final line.  (Files containing empty lines are excluded: their
empty lines are dropped, or kept, depending on where the buffer boundaries
fall.) -/
theorem c9_reverse_readline_lines (content : List Char) (bs : Nat) (hbs : 1 ≤ bs)
    (hclean : [] ∉ fileLines content) :
    reverse_readline content bs = (fileLines content).reverse := by
  by_cases hne : content = []
  · subst hne
    rfl
  · have hhead := head_ne_newline_of_clean content hne hclean
    have hnn := noNN_of_clean content hclean
    have hmain := rrlGo_correct content bs hbs hne hhead hnn content.length
      (content.length : Int) 0 none (by simp) (le_refl _) (by simp) rfl
    rw [show reverse_readline content bs
        = rrlGo content bs content.length (content.length : Int) 0 none from rfl, hmain]
    simp

/-- Witness for C9's amended theorem: a two-line file without trailing
terminator, read with a 2-byte buffer (multiple chunks, boundary inside a
line). -/
theorem c9_witness :
    reverse_readline ['a', 'b', '\n', 'c', 'd'] 2
      = (fileLines ['a', 'b', '\n', 'c', 'd']).reverse :=
  c9_reverse_readline_lines ['a', 'b', '\n', 'c', 'd'] 2 (by decide) (by decide)

end MailLog

